import Mathlib

/-!
Verification development for the GitBook-to-HTML downloader
(`convert_gitbook_to_html.py`).

The file shallowly embeds the change-detection and deduplication core of the
script:

* `clean_html_for_comparison` — the 13-step regex normalizer (lines 26-79 of
  the source).  Each `re.sub` call is embedded as a dedicated scanner that
  attempts the pattern at one position, driven by `substP`, which reproduces
  Python's left-to-right, non-overlapping substitution discipline (failed
  position advances one character; a match of length `m` resumes after it).
  Python string semantics are modelled on ASCII text: `str.lower` is
  `pyLower`, `\s`, `\w`, `\d` are the ASCII classes, `.` is any char except
  newline.
* `calculate_md5` — a full MD5 over the UTF-8 bytes of the cleaned text
  (lines 81-85); machine words are `Nat` with explicit `% 2^32`.
* `save_webpage_as_html` — the per-URL handler (lines 102-254) as a pure
  function from an explicit state (cache map, file system, title index) and
  an abstract transport result to the successor state.  The external
  collaborators the spec scopes out (HTTP transport, BeautifulSoup title
  extraction) are parameters.
* the link-walking loop of `convert_gitbook_to_html` (lines 327-365),
  including `urljoin`/`urlparse` restricted to the shapes the loop produces,
  and the safe-filename derivation (lines 343-357).
-/

set_option autoImplicit false

namespace Gitbook

/-- Single-quote character, kept out of string literals. -/
def squote : Char := Char.ofNat 39

/-- Double-quote character, kept out of string literals. -/
def dquote : Char := Char.ofNat 34

/-- Opening curly brace character. -/
def lbrace : Char := Char.ofNat 123

/-- Closing curly brace character. -/
def rbrace : Char := Char.ofNat 125

/-- ASCII whitespace, the characters Python's `\s` matches on ASCII text. -/
def isSpc (c : Char) : Bool :=
  c == ' ' || c == '\t' || c == '\n' || c == '\r' || c == Char.ofNat 11 || c == Char.ofNat 12

/-- ASCII word character, Python's `\w` on ASCII text. -/
def isWordChar (c : Char) : Bool :=
  ('a' ≤ c && c ≤ 'z') || ('A' ≤ c && c ≤ 'Z') || ('0' ≤ c && c ≤ '9') || c == '_'

/-- Decimal digit, Python's `\d`. -/
def isDig (c : Char) : Bool := '0' ≤ c && c ≤ '9'

/-- Lower-case hexadecimal digit, the class `[a-f0-9]`. -/
def isHexLower (c : Char) : Bool := ('a' ≤ c && c ≤ 'f') || isDig c

/-- Quote character of either kind, the class `["\x27]`. -/
def isQuote (c : Char) : Bool := c == dquote || c == squote

/-- Model of Python's `str.lower()` on ASCII text. -/
def pyLower (c : Char) : Char :=
  if 'A' ≤ c && c ≤ 'Z' then Char.ofNat (c.toNat + 32) else c

/-- Model of Python's `str.strip()` on ASCII text: drop leading and trailing
whitespace. -/
def pyStrip (l : List Char) : List Char :=
  ((l.dropWhile isSpc).reverse.dropWhile isSpc).reverse

/-- Model of Python's `str.startswith`: list prefix test on the characters. -/
def pyStartsWith (s pre : String) : Bool := pre.data.isPrefixOf s.data

/-- First index at which `pat` occurs as a prefix of a suffix of `l`
(leftmost occurrence of the substring `pat`). -/
def findSub (pat : List Char) : List Char → Option Nat
  | [] => if pat.isPrefixOf ([] : List Char) then some 0 else none
  | a :: r =>
    if pat.isPrefixOf (a :: r) then some 0
    else (findSub pat r).map (· + 1)

/-- First index of the character `c` in `l`. -/
def findChar (c : Char) : List Char → Option Nat
  | [] => none
  | a :: r => if a == c then some 0 else (findChar c r).map (· + 1)

/-- One pass of Python's `re.sub`: scan left to right; at each position hand
the previous original character (for word boundaries) and the remaining text
to `try`; on `some (rep, m)` emit `rep` and resume after the `m` matched
characters, otherwise keep one character and advance. Every scanner in this
file returns `m ≥ 1`. -/
def substPF (tr : Option Char → List Char → Option (List Char × Nat)) :
    Nat → Option Char → List Char → List Char
  | 0, _, _ => []
  | _ + 1, _, [] => []
  | fuel + 1, prev, a :: rest =>
    match tr prev (a :: rest) with
    | some (rep, m) =>
      rep ++ substPF tr fuel (some ((a :: rest).getD (m - 1) a)) (rest.drop (m - 1))
    | none => a :: substPF tr fuel (some a) rest

/-- The pass itself: fuel the scan with the text length (every step consumes
at least one character, so the fuel never runs out; `substPF_eq` below makes
this precise). -/
def substP (tr : Option Char → List Char → Option (List Char × Nat))
    (prev : Option Char) (l : List Char) : List Char :=
  substPF tr l.length prev l

/-- Any fuel at least the text length gives the same scan result. -/
theorem substPF_eq (tr : Option Char → List Char → Option (List Char × Nat)) :
    ∀ (f1 f2 : Nat) (l : List Char) (prev : Option Char),
      l.length ≤ f1 → l.length ≤ f2 → substPF tr f1 prev l = substPF tr f2 prev l := by
  intro f1
  induction f1 with
  | zero =>
    intro f2 l prev h1 _
    have hl : l = [] := List.length_eq_zero.mp (Nat.le_zero.mp h1)
    subst hl
    cases f2 <;> rfl
  | succ f1 ih =>
    intro f2 l prev h1 h2
    cases l with
    | nil => cases f2 <;> rfl
    | cons a rest =>
      cases f2 with
      | zero => simp at h2
      | succ f2 =>
        show substPF tr (f1 + 1) prev (a :: rest) = substPF tr (f2 + 1) prev (a :: rest)
        simp only [substPF]
        simp only [List.length_cons] at h1 h2
        cases htr : tr prev (a :: rest) with
        | none =>
          dsimp only
          rw [ih f2 rest (some a) (by omega) (by omega)]
        | some rm =>
          obtain ⟨rep, m⟩ := rm
          have hd : (rest.drop (m - 1)).length ≤ rest.length := by
            rw [List.length_drop]
            omega
          dsimp only
          rw [ih f2 (rest.drop (m - 1)) _ (by omega) (by omega)]

/-- The scan of the empty text. -/
theorem substP_nil (tr : Option Char → List Char → Option (List Char × Nat))
    (prev : Option Char) : substP tr prev [] = [] := rfl

/-- Scan step when the scanner matches at the position. -/
theorem substP_cons_some (tr : Option Char → List Char → Option (List Char × Nat))
    (prev : Option Char) (a : Char) (rest rep : List Char) (m : Nat)
    (h : tr prev (a :: rest) = some (rep, m)) :
    substP tr prev (a :: rest) =
      rep ++ substP tr (some ((a :: rest).getD (m - 1) a)) (rest.drop (m - 1)) := by
  show substPF tr (rest.length + 1) prev (a :: rest) = _
  simp only [substPF, h]
  rw [substPF_eq tr rest.length (rest.drop (m - 1)).length (rest.drop (m - 1)) _
    (by rw [List.length_drop]; omega) (Nat.le_refl _)]
  rfl

/-- Scan step when the scanner fails at the position. -/
theorem substP_cons_none (tr : Option Char → List Char → Option (List Char × Nat))
    (prev : Option Char) (a : Char) (rest : List Char)
    (h : tr prev (a :: rest) = none) :
    substP tr prev (a :: rest) = a :: substP tr (some a) rest := by
  show substPF tr (rest.length + 1) prev (a :: rest) = _
  simp only [substPF, h]
  rfl

/-- Consume exactly `n` characters all satisfying `p`, returning the rest. -/
def chompExact (p : Char → Bool) (n : Nat) (l : List Char) : Option (List Char) :=
  if (l.take n).length == n && (l.take n).all p then some (l.drop n) else none

/-- Consume one character satisfying `p`. -/
def chompChar (p : Char → Bool) : List Char → Option (List Char)
  | [] => none
  | c :: r => if p c then some r else none

/-- Does `l` start with `\d\{2\}:\d\{2\}:\d\{2\}` (eight characters)? -/
def isTimeStart (l : List Char) : Bool :=
  (((((chompExact isDig 2 l).bind (chompChar (· == ':'))).bind
      (chompExact isDig 2)).bind (chompChar (· == ':'))).bind
      (chompExact isDig 2)).isSome

/-- Scanner for line 35, `re.sub(r'<script\b[^<]*(?:(?!<\/script>)<[^<]*)*<\/script>', ...)`:
from a `<script` with a word boundary after it, through the first following
`</script>`. -/
def tryScript (_ : Option Char) (t : List Char) : Option (List Char × Nat) :=
  if "<script".data.isPrefixOf t then
    match t.drop 7 with
    | [] => none
    | c :: _ =>
      if isWordChar c then none
      else
        match findSub "</script>".data (t.drop 7) with
        | some i => some ([], 7 + i + 9)
        | none => none
  else none

/-- Scanner for line 38, the same pattern with `style`. -/
def tryStyleTag (_ : Option Char) (t : List Char) : Option (List Char × Nat) :=
  if "<style".data.isPrefixOf t then
    match t.drop 6 with
    | [] => none
    | c :: _ =>
      if isWordChar c then none
      else
        match findSub "</style>".data (t.drop 6) with
        | some i => some ([], 6 + i + 8)
        | none => none
  else none

/-- Scanner for line 41, `re.sub(r'<!--[\s\S]*?-->', '', content)`: a comment
opener through the first (non-greedy) closer. -/
def tryComment (_ : Option Char) (t : List Char) : Option (List Char × Nat) :=
  if "<!--".data.isPrefixOf t then
    match findSub "-->".data (t.drop 4) with
    | some i => some ([], 4 + i + 3)
    | none => none
  else none

/-- Scanner for line 44, `re.sub(r'<meta\b[^>]*>', '', content)`. -/
def tryMeta (_ : Option Char) (t : List Char) : Option (List Char × Nat) :=
  if "<meta".data.isPrefixOf t then
    match t.drop 5 with
    | [] => none
    | c :: _ =>
      if isWordChar c then none
      else
        match findChar '>' (t.drop 5) with
        | some i => some ([], 5 + i + 1)
        | none => none
  else none

/-- Attribute-name alternation of line 47, `(data-\w+|id|class|style|aria-\w+|role)`
followed by `=`: the matched name length, or none.  The six alternatives are
mutually non-overlapping at a fixed position, so Python's left-to-right
alternation with backtracking reduces to trying each with a maximal `\w+`. -/
def attrNameLen (l : List Char) : Option Nat :=
  let tryFixed (name : List Char) : Option Nat :=
    if name.isPrefixOf l && (l.getD name.length ' ' == '=') then some name.length else none
  let tryDash (pre : List Char) : Option Nat :=
    if pre.isPrefixOf l then
      let run := (l.drop pre.length).takeWhile isWordChar
      if 1 ≤ run.length && ((l.drop (pre.length + run.length)).headD ' ' == '=')
      then some (pre.length + run.length) else none
    else none
  ((((( tryDash "data-".data).orElse (fun _ => tryFixed "id".data)).orElse
      (fun _ => tryFixed "class".data)).orElse
      (fun _ => tryFixed "style".data)).orElse
      (fun _ => tryDash "aria-".data)).orElse
      (fun _ => tryFixed "role".data)

/-- Quoted value `["\x27][^"\x27]*["\x27]`: an opening quote of either kind, a
run free of both quote kinds, and a closing quote of either kind.  Returns the
number of characters consumed. -/
def quotedValueLen (l : List Char) : Option Nat :=
  match l with
  | q :: r =>
    if isQuote q then
      let run := r.takeWhile (fun c => !(isQuote c))
      match r.drop run.length with
      | q2 :: _ => if isQuote q2 then some (1 + run.length + 1) else none
      | [] => none
    else none
  | [] => none

/-- Scanner for line 47,
`re.sub(r'\s(data-\w+|id|class|style|aria-\w+|role)=["\x27][^"\x27]*["\x27]', '', content)`. -/
def tryAttr (_ : Option Char) (t : List Char) : Option (List Char × Nat) :=
  match t with
  | c :: r =>
    if isSpc c then
      match attrNameLen r with
      | some n =>
        match quotedValueLen (r.drop (n + 1)) with
        | some v => some ([], 1 + n + 1 + v)
        | none => none
      | none => none
    else none
  | [] => none

/-- Word-boundary test for a match that begins with a word character: the
previous original character must be absent or not a word character. -/
def boundaryBefore (prev : Option Char) : Bool :=
  match prev with
  | none => true
  | some c => !(isWordChar c)

/-- Scanner for line 50,
`re.sub` with the ISO-like date-time pattern: `\\b`, four digits, a dash-or-slash
separator, two digits, the separator again, two digits, `[t\\s]?`, then a time
`hh:mm:ss`.
The optional `[t\s]?` is greedy with one backtracking retry. -/
def tryTs1 (prev : Option Char) (t : List Char) : Option (List Char × Nat) :=
  if boundaryBefore prev then
    match (((chompExact isDig 4 t).bind (chompChar (fun c => c == '-' || c == '/'))).bind
        (chompExact isDig 2)).bind (chompChar (fun c => c == '-' || c == '/')) with
    | some l1 =>
      match chompExact isDig 2 l1 with
      | some u =>
        match u with
        | c :: v =>
          if c == 't' || isSpc c then
            if isTimeStart v then some ([], 10 + 1 + 8)
            else if isTimeStart u then some ([], 10 + 8) else none
          else if isTimeStart u then some ([], 10 + 8) else none
        | [] => none
      | none => none
    | none => none
  else none

/-- Scanner for line 51, the reversed date pattern
two digits, dash-or-slash, two digits, dash-or-slash, four digits, `[t\\s]?`,
then a time `hh:mm:ss`. -/
def tryTs2 (prev : Option Char) (t : List Char) : Option (List Char × Nat) :=
  if boundaryBefore prev then
    match (((chompExact isDig 2 t).bind (chompChar (fun c => c == '-' || c == '/'))).bind
        (chompExact isDig 2)).bind (chompChar (fun c => c == '-' || c == '/')) with
    | some l1 =>
      match chompExact isDig 4 l1 with
      | some u =>
        match u with
        | c :: v =>
          if c == 't' || isSpc c then
            if isTimeStart v then some ([], 10 + 1 + 8)
            else if isTimeStart u then some ([], 10 + 8) else none
          else if isTimeStart u then some ([], 10 + 8) else none
        | [] => none
      | none => none
    | none => none
  else none

/-- Scanner for line 52, `re.sub(r'\b\d\{2\}:\d\{2\}:\d\{2\}.\d+z?\b', '', content)`.
The `.` is any character but a newline; the trailing `z?\b` only succeeds on
the greedy digit run (shorter runs leave a word character adjacent). -/
def tryTs3 (prev : Option Char) (t : List Char) : Option (List Char × Nat) :=
  if boundaryBefore prev && isTimeStart t then
    match t.drop 8 with
    | [] => none
    | dot :: u =>
      if dot == '\n' then none
      else
        let run := u.takeWhile isDig
        if run.length == 0 then none
        else
          match u.drop run.length with
          | [] => some ([], 8 + 1 + run.length)
          | c :: v =>
            if c == 'z' then
              match v with
              | [] => some ([], 8 + 1 + run.length + 1)
              | c2 :: _ =>
                if isWordChar c2 then none else some ([], 8 + 1 + run.length + 1)
            else if isWordChar c then none
            else some ([], 8 + 1 + run.length)
  else none

/-- Scanner for line 55, `re.sub(r'v\d+\.\d+(\.\d+)?', '', content)`. -/
def tryVersion (_ : Option Char) (t : List Char) : Option (List Char × Nat) :=
  match t with
  | c :: r =>
    if c == 'v' then
      let r1 := r.takeWhile isDig
      if r1.length == 0 then none
      else
        match r.drop r1.length with
        | d :: r2 =>
          if d == '.' then
            let r3 := r2.takeWhile isDig
            if r3.length == 0 then none
            else
              let base := 1 + r1.length + 1 + r3.length
              match r2.drop r3.length with
              | d2 :: r4 =>
                if d2 == '.' then
                  let r5 := r4.takeWhile isDig
                  if r5.length == 0 then some ([], base)
                  else some ([], base + 1 + r5.length)
                else some ([], base)
              | [] => some ([], base)
          else none
        | [] => none
    else none
  | [] => none

/-- Character allowed in the first URL class of line 58, `[^"\x27&\s]`. -/
def urlChar1 (c : Char) : Bool := !(isQuote c || c == '&' || isSpc c)

/-- Character allowed in the second URL class of line 58, `[^"\x27\s]`. -/
def urlChar2 (c : Char) : Bool := !(isQuote c || isSpc c)

/-- Scanner for line 58,
`re.sub(r'(https?://[^"\x27&\s]+)\?[^"\x27\s]+', r'\1', content)`: the greedy
first class backtracks to the rightmost `?` that leaves a nonempty tail in
the second class; the match is replaced by group 1. -/
def tryUrlQuery (_ : Option Char) (t : List Char) : Option (List Char × Nat) :=
  let parseScheme : Option Nat :=
    if "https://".data.isPrefixOf t then some 8
    else if "http://".data.isPrefixOf t then some 7
    else none
  match parseScheme with
  | none => none
  | some p =>
    let rest := t.drop p
    let a := rest.takeWhile urlChar1
    match (List.range a.length).reverse.find? (fun k =>
        1 ≤ k && (a.getD k ' ' == '?') &&
        1 ≤ ((rest.drop (k + 1)).takeWhile urlChar2).length) with
    | some k =>
      let tail := (rest.drop (k + 1)).takeWhile urlChar2
      some (t.take p ++ a.take k, p + k + 1 + tail.length)
    | none => none

/-- Scanner for line 61, `re.sub(r'updated-at=["\x27][^"\x27]*["\x27]', '', content)`. -/
def tryUpdatedAt (_ : Option Char) (t : List Char) : Option (List Char × Nat) :=
  if "updated-at=".data.isPrefixOf t then
    match quotedValueLen (t.drop 11) with
    | some v => some ([], 11 + v)
    | none => none
  else none

/-- Scanner for line 62, `re.sub(r'gitbook-\w+=["\x27][^"\x27]*["\x27]', '', content)`. -/
def tryGitbook (_ : Option Char) (t : List Char) : Option (List Char × Nat) :=
  if "gitbook-".data.isPrefixOf t then
    let run := (t.drop 8).takeWhile isWordChar
    if 1 ≤ run.length && ((t.drop (8 + run.length)).headD ' ' == '=') then
      match quotedValueLen (t.drop (8 + run.length + 1)) with
      | some v => some ([], 8 + run.length + 1 + v)
      | none => none
    else none
  else none

/-- Non-greedy search of line 65's `.*?[}\]][\x27"]`: the least offset whose
character closes a brace or bracket with a quote right after, never crossing
a newline (`.` does not match one). -/
def findJsonEnd : List Char → Option Nat
  | [] => none
  | [_] => none
  | c :: c2 :: r =>
    if (c == rbrace || c == ']') && isQuote c2 then some 0
    else if c == '\n' then none
    else (findJsonEnd (c2 :: r)).map (· + 1)

/-- Scanner for line 65, `re.sub(r'data-\w+=[\x27"][\x7b\[].*?[\x7d\]][\x27"]', '', content)`. -/
def tryDataJson (_ : Option Char) (t : List Char) : Option (List Char × Nat) :=
  if "data-".data.isPrefixOf t then
    let run := (t.drop 5).takeWhile isWordChar
    if 1 ≤ run.length && ((t.drop (5 + run.length)).headD ' ' == '=') then
      match t.drop (5 + run.length + 1) with
      | q :: b :: r =>
        if isQuote q && (b == lbrace || b == '[') then
          match findJsonEnd r with
          | some j => some ([], 5 + run.length + 1 + 1 + 1 + j + 2)
          | none => none
        else none
      | _ => none
    else none
  else none

/-- Scanner for line 68, the UUID pattern
`[a-f0-9]\{8\}-[a-f0-9]\{4\}-[a-f0-9]\{4\}-[a-f0-9]\{4\}-[a-f0-9]\{12\}`. -/
def tryUuid (_ : Option Char) (t : List Char) : Option (List Char × Nat) :=
  let dash := chompChar (· == '-')
  match (((((((( chompExact isHexLower 8 t).bind dash).bind
      (chompExact isHexLower 4)).bind dash).bind
      (chompExact isHexLower 4)).bind dash).bind
      (chompExact isHexLower 4)).bind dash).bind
      (chompExact isHexLower 12) with
  | some _ => some ([], 36)
  | none => none

/-- Scanner for line 69, `re.sub(r'[a-f0-9]\{32\}', '', content)`. -/
def tryHex32 (_ : Option Char) (t : List Char) : Option (List Char × Nat) :=
  match chompExact isHexLower 32 t with
  | some _ => some ([], 32)
  | none => none

/-- Scanner for line 72, `re.sub(r'<html\s+[^>]*>', '<html>', content)`. -/
def tryHtmlTag (_ : Option Char) (t : List Char) : Option (List Char × Nat) :=
  if "<html".data.isPrefixOf t then
    match t.drop 5 with
    | [] => none
    | c :: _ =>
      if isSpc c then
        match findChar '>' (t.drop 5) with
        | some i => some ( "<html>".data, 5 + i + 1)
        | none => none
      else none
  else none

/-- Scanner for line 73, `re.sub(r'<body\s+[^>]*>', '<body>', content)`. -/
def tryBodyTag (_ : Option Char) (t : List Char) : Option (List Char × Nat) :=
  if "<body".data.isPrefixOf t then
    match t.drop 5 with
    | [] => none
    | c :: _ =>
      if isSpc c then
        match findChar '>' (t.drop 5) with
        | some i => some ( "<body>".data, 5 + i + 1)
        | none => none
      else none
  else none

/-- Scanner for line 76, `re.sub(r'\s+', ' ', content)`: a maximal whitespace
run becomes one space. -/
def tryWs (_ : Option Char) (t : List Char) : Option (List Char × Nat) :=
  match t with
  | c :: _ =>
    if isSpc c then some ([' '], (t.takeWhile isSpc).length) else none
  | [] => none

/-- The normalizer's final stage (lines 76-77 and the `strip()` of line 79):
collapse whitespace runs to one space, then strip the ends. -/
def wsFinalStage (l : List Char) : List Char :=
  pyStrip (substP tryWs none l)

/-- Steps 4-13 of the normalizer (lines 44-77): everything after comment
removal, ending in whitespace collapse and strip. -/
def cleanTail (l : List Char) : List Char :=
  let c5 := substP tryMeta none l
  let c6 := substP tryAttr none c5
  let c7 := substP tryTs1 none c6
  let c8 := substP tryTs2 none c7
  let c9 := substP tryTs3 none c8
  let c10 := substP tryVersion none c9
  let c11 := substP tryUrlQuery none c10
  let c12 := substP tryUpdatedAt none c11
  let c13 := substP tryGitbook none c12
  let c14 := substP tryDataJson none c13
  let c15 := substP tryUuid none c14
  let c16 := substP tryHex32 none c15
  let c17 := substP tryHtmlTag none c16
  let c18 := substP tryBodyTag none c17
  wsFinalStage c18

/-- The normalizer `clean_html_for_comparison` (lines 26-79): lowercase, drop
script and style blocks, comments, then `cleanTail`. -/
def clean_html_for_comparison (html : String) : String :=
  String.mk (cleanTail (substP tryComment none
    (substP tryStyleTag none (substP tryScript none (html.data.map pyLower)))))

/-- UTF-8 encoding of one character, as byte values. -/
def utf8Char (c : Char) : List Nat :=
  let n := c.toNat
  if n < 128 then [n]
  else if n < 2048 then [192 + n / 64, 128 + n % 64]
  else if n < 65536 then [224 + n / 4096, 128 + n / 64 % 64, 128 + n % 64]
  else [240 + n / 262144, 128 + n / 4096 % 64, 128 + n / 64 % 64, 128 + n % 64]

/-- UTF-8 bytes of a string (Python `str.encode`). -/
def utf8Bytes (s : String) : List Nat :=
  (s.data.map utf8Char).flatten

/-- Rotate a 32-bit word left by `s` bits. -/
def rotl32 (x s : Nat) : Nat :=
  (x * 2 ^ s + x / 2 ^ (32 - s)) % 2 ^ 32

/-- Bitwise complement within 32 bits of a word `x < 2^32`. -/
def compl32 (x : Nat) : Nat := (2 ^ 32 - 1) - x

/-- The 64 MD5 sine-derived constants. -/
def md5K : List Nat :=
  [0xd76aa478, 0xe8c7b756, 0x242070db, 0xc1bdceee,
   0xf57c0faf, 0x4787c62a, 0xa8304613, 0xfd469501,
   0x698098d8, 0x8b44f7af, 0xffff5bb1, 0x895cd7be,
   0x6b901122, 0xfd987193, 0xa679438e, 0x49b40821,
   0xf61e2562, 0xc040b340, 0x265e5a51, 0xe9b6c7aa,
   0xd62f105d, 0x02441453, 0xd8a1e681, 0xe7d3fbc8,
   0x21e1cde6, 0xc33707d6, 0xf4d50d87, 0x455a14ed,
   0xa9e3e905, 0xfcefa3f8, 0x676f02d9, 0x8d2a4c8a,
   0xfffa3942, 0x8771f681, 0x6d9d6122, 0xfde5380c,
   0xa4beea44, 0x4bdecfa9, 0xf6bb4b60, 0xbebfbc70,
   0x289b7ec6, 0xeaa127fa, 0xd4ef3085, 0x04881d05,
   0xd9d4d039, 0xe6db99e5, 0x1fa27cf8, 0xc4ac5665,
   0xf4292244, 0x432aff97, 0xab9423a7, 0xfc93a039,
   0x655b59c3, 0x8f0ccc92, 0xffeff47d, 0x85845dd1,
   0x6fa87e4f, 0xfe2ce6e0, 0xa3014314, 0x4e0811a1,
   0xf7537e82, 0xbd3af235, 0x2ad7d2bb, 0xeb86d391]

/-- The 64 MD5 per-round left-rotation amounts. -/
def md5S : List Nat :=
  [7, 12, 17, 22, 7, 12, 17, 22, 7, 12, 17, 22, 7, 12, 17, 22,
   5, 9, 14, 20, 5, 9, 14, 20, 5, 9, 14, 20, 5, 9, 14, 20,
   4, 11, 16, 23, 4, 11, 16, 23, 4, 11, 16, 23, 4, 11, 16, 23,
   6, 10, 15, 21, 6, 10, 15, 21, 6, 10, 15, 21, 6, 10, 15, 21]

/-- One MD5 operation: state `(a, b, c, d)`, message words `m`, step `i`. -/
def md5Op (m : List Nat) (st : Nat × Nat × Nat × Nat) (i : Nat) : Nat × Nat × Nat × Nat :=
  let (a, b, c, d) := st
  let (f, g) :=
    if i < 16 then ((b &&& c) ||| (compl32 b &&& d), i)
    else if i < 32 then ((d &&& b) ||| (compl32 d &&& c), (5 * i + 1) % 16)
    else if i < 48 then (b ^^^ c ^^^ d, (3 * i + 5) % 16)
    else (c ^^^ (b ||| compl32 d), (7 * i) % 16)
  let f2 := (f + a + md5K.getD i 0 + m.getD g 0) % 2 ^ 32
  (d, (b + rotl32 f2 (md5S.getD i 0)) % 2 ^ 32, b, c)

/-- Little-endian bytes of `n`, `k` bytes long. -/
def bytesLE : Nat → Nat → List Nat
  | 0, _ => []
  | k + 1, n => n % 256 :: bytesLE k (n / 256)

/-- Group a byte list into the 16 little-endian 32-bit message words of one
64-byte chunk. -/
def chunkWords (chunk : List Nat) : List Nat :=
  (List.range 16).map (fun j =>
    chunk.getD (4 * j) 0 + 256 * chunk.getD (4 * j + 1) 0 +
    65536 * chunk.getD (4 * j + 2) 0 + 16777216 * chunk.getD (4 * j + 3) 0)

/-- Process one 64-byte chunk into the running MD5 state. -/
def md5Chunk (st : Nat × Nat × Nat × Nat) (chunk : List Nat) : Nat × Nat × Nat × Nat :=
  let m := chunkWords chunk
  let (a, b, c, d) := (List.range 64).foldl (md5Op m) st
  let (a0, b0, c0, d0) := st
  ((a0 + a) % 2 ^ 32, (b0 + b) % 2 ^ 32, (c0 + c) % 2 ^ 32, (d0 + d) % 2 ^ 32)

/-- Split a list into 64-byte chunks. -/
def chunks64 (l : List Nat) : List (List Nat) :=
  (List.range ((l.length + 63) / 64)).map (fun i => (l.drop (64 * i)).take 64)

/-- MD5 padding: `0x80`, zeros to 56 mod 64, then the bit length as 8
little-endian bytes. -/
def md5Pad (msg : List Nat) : List Nat :=
  let z := (120 - (msg.length + 1) % 64) % 64
  msg ++ [128] ++ List.replicate z 0 ++ bytesLE 8 (msg.length * 8 % 2 ^ 64)

/-- The four MD5 state words of a byte message. -/
def md5Words (msg : List Nat) : Nat × Nat × Nat × Nat :=
  (chunks64 (md5Pad msg)).foldl md5Chunk (0x67452301, 0xefcdab89, 0x98badcfe, 0x10325476)

/-- The 128-bit MD5 value of a byte message, the digest bytes read
little-endian (word order a, b, c, d, each word little-endian). -/
def md5Nat (msg : List Nat) : Nat :=
  let (a, b, c, d) := md5Words msg
  a + 2 ^ 32 * b + 2 ^ 64 * c + 2 ^ 96 * d

/-- Lower-case hex digit characters. -/
def hexDigits : List Char := "0123456789abcdef".data

/-- Two lower-case hex characters of one byte. -/
def hexByte (n : Nat) : List Char :=
  [hexDigits.getD (n / 16 % 16) '0', hexDigits.getD (n % 16) '0']

/-- Model of `hashlib.md5(s.encode()).hexdigest()`: 32 lower-case hex
characters, digest bytes in order. -/
def md5Hex (s : String) : String :=
  String.mk (((bytesLE 16 (md5Nat (utf8Bytes s))).map hexByte).flatten)

/-- The function `calculate_md5` (lines 81-85): MD5 hex digest of the cleaned
content. -/
def calculate_md5 (content : String) : String :=
  md5Hex (clean_html_for_comparison content)

/-! ## The per-URL handler `save_webpage_as_html` (lines 102-254)

State is explicit: the cache is a map from URL to record, the file system a
map from path to contents, the duplicate-title index a map from title to
filename (`none` when `--check-title-duplicate` is off, mirroring the
`title_mapping=None` default).  The HTTP transport and BeautifulSoup are the
external collaborators of spec section 6 and enter as the `FetchResult`
argument and the `getTitle` parameter. -/

/-- One value of the cache dictionary (spec section 3 CacheRecord): every key
of the Python dict is optional. -/
structure Record where
  md5 : Option String := none
  etag : Option String := none
  last_modified : Option String := none
  title : Option String := none
  last_download : Option String := none
deriving DecidableEq, Repr

/-- The cache, keyed by URL (the Python `cache_data` dict). -/
def Cache : Type := String → Option Record

/-- The file system: path to contents; `none` is `not os.path.exists`. -/
def FS : Type := String → Option String

/-- The duplicate-title index (the Python `title_mapping` dict). -/
def TitleMap : Type := String → Option String

/-- Point update of a cache map. -/
def updCache (c : Cache) (u : String) (r : Record) : Cache :=
  fun v => if v = u then some r else c v

/-- Point update of a file-system map (writing a file). -/
def updFS (fs : FS) (p : String) (content : String) : FS :=
  fun q => if q = p then some content else fs q

/-- Point update of a title map. -/
def updTitle (tm : TitleMap) (t f : String) : TitleMap :=
  fun v => if v = t then some f else tm v

/-- An HTTP response as the handler reads it: status code, the two validator
headers, and the body text. -/
structure Response where
  status : Nat
  etag : Option String := none
  lastModified : Option String := none
  body : String := ""
deriving DecidableEq, Repr

/-- Result of `session.get`: a response, or a raised `RequestException`
(connection failure). -/
inductive FetchResult where
  | err : FetchResult
  | ok : Response → FetchResult

/-- What one call to `save_webpage_as_html` leaves behind: the returned
boolean, the successor cache / file system / title index, and two trace
flags recording whether the call reached `calculate_md5` and
`get_page_title`. -/
structure SaveResult where
  saved : Bool
  cache : Cache
  fs : FS
  titles : Option TitleMap
  computedDigest : Bool
  extractedTitle : Bool

/-- Model of `os.path.basename`. -/
def pyBasename (p : String) : String :=
  String.mk ((p.data.reverse.takeWhile (fun c => !(c == '/'))).reverse)

/-- The check `title_mapping and check_title_exists(page_title, title_mapping)`
(lines 95-100 and 140): false when the index is `None` or empty or the title
is missing from it. -/
def dupHit (tm? : Option TitleMap) (t : String) : Bool :=
  match tm? with
  | none => false
  | some tm => (tm t).isSome

/-- Lines 137-161, the title block: extract the title; a truthy title is
stored in the URL's record; a duplicate suppresses the download (third
component true); otherwise an active index registers
`basename(output_filename)` under the title. -/
def titlePhase (getTitle : String → Option String) (url out : String)
    (cache : Cache) (tm? : Option TitleMap) (body : String) :
    Cache × Option TitleMap × Bool :=
  match getTitle body with
  | none => (cache, tm?, false)
  | some t =>
    if t = "" then (cache, tm?, false)
    else
      let r0 := (cache url).getD {}
      let cache1 := updCache cache url { r0 with title := some t }
      if dupHit tm? t then (cache1, tm?, true)
      else
        match tm? with
        | none => (cache1, none, false)
        | some tm => (cache1, some (updTitle tm t (pyBasename out)), false)

/-- Lines 172-192 as one boolean: `content_changed` after the cached-digest
check (line 176) and the on-disk comparison (line 184).  The file is only
consulted when the cached digest did not match. -/
def contentChangedB (cache1 : Cache) (fs : FS) (url out d : String) : Bool :=
  if (cache1 url).bind Record.md5 == some d then false
  else
    match fs out with
    | some existing => !(calculate_md5 existing == d)
    | none => true

/-- Lines 169-247, the digest-and-write block: compute the digest; on no
change refresh `md5` and any returned validators (lines 217-227); otherwise
write the raw body and additionally stamp `last_download` (lines 229-247). -/
def reconcile (now url out : String) (resp : Response) (cache1 : Cache)
    (fs : FS) (tm1 : Option TitleMap) : SaveResult :=
  let d := calculate_md5 resp.body
  let r0 := (cache1 url).getD {}
  if contentChangedB cache1 fs url out d then
    let r := { r0 with
      md5 := some d
      last_download := some now
      etag := resp.etag.or r0.etag
      last_modified := resp.lastModified.or r0.last_modified }
    ⟨true, updCache cache1 url r, updFS fs out resp.body, tm1, true, true⟩
  else
    let r := { r0 with
      md5 := some d
      etag := resp.etag.or r0.etag
      last_modified := resp.lastModified.or r0.last_modified }
    ⟨false, updCache cache1 url r, fs, tm1, true, true⟩

/-- The handler `save_webpage_as_html` (lines 102-254).  `getTitle` models
`get_page_title` via BeautifulSoup, `now` the `datetime.now().isoformat()`
stamp.  A raised transport error or `raise_for_status` (4xx/5xx) is caught
by the `except` arms (lines 249-254) leaving every piece of state as it
was; a 304 returns at line 133 before any title or digest work. -/
def save_webpage_as_html (getTitle : String → Option String) (now : String)
    (url out : String) (cache : Cache) (fs : FS) (tm? : Option TitleMap)
    (fetch : FetchResult) : SaveResult :=
  match fetch with
  | .err => ⟨false, cache, fs, tm?, false, false⟩
  | .ok resp =>
    if resp.status == 304 then ⟨false, cache, fs, tm?, false, false⟩
    else if 400 ≤ resp.status then ⟨false, cache, fs, tm?, false, false⟩
    else
      if (titlePhase getTitle url out cache tm? resp.body).2.2 then
        ⟨false, (titlePhase getTitle url out cache tm? resp.body).1, fs,
          (titlePhase getTitle url out cache tm? resp.body).2.1, false, true⟩
      else
        reconcile now url out resp (titlePhase getTitle url out cache tm? resp.body).1 fs
          (titlePhase getTitle url out cache tm? resp.body).2.1

/-! ## The link-walking loop of `convert_gitbook_to_html` (lines 327-365)

`urlparse`/`urljoin` are modelled on the shapes the loop meets: absolute
`http(s)` URLs and hrefs beginning with `/` (an href beginning with `//` is a
network-path reference and resolves to its own authority, as `urljoin`
does). -/

/-- Character ending the authority component in `urlparse`. -/
def endsNetloc (c : Char) : Bool := c == '/' || c == '?' || c == '#'

/-- Character ending the path component in `urlparse`. -/
def endsPath (c : Char) : Bool := c == '?' || c == '#'

/-- Scheme component of `urlparse`: the text before the first `:`, empty when
there is none. -/
def schemeChars (l : List Char) : List Char :=
  if l.contains ':' then l.takeWhile (fun c => !(c == ':')) else []

/-- The text after the scheme and its `:`, or the whole input without one. -/
def afterScheme (l : List Char) : List Char :=
  if l.contains ':' then (l.dropWhile (fun c => !(c == ':'))).drop 1 else l

/-- Authority (netloc) component of `urlparse`: present only after `//`. -/
def netlocChars (l : List Char) : List Char :=
  if (afterScheme l).take 2 = ['/', '/'] then
    ((afterScheme l).drop 2).takeWhile (fun c => !(endsNetloc c))
  else []

/-- Path component of `urlparse`: after the authority, up to `?` or `#`. -/
def pathChars (l : List Char) : List Char :=
  if (afterScheme l).take 2 = ['/', '/'] then
    (((afterScheme l).drop 2).dropWhile (fun c => !(endsNetloc c))).takeWhile
      (fun c => !(endsPath c))
  else (afterScheme l).takeWhile (fun c => !(endsPath c))

/-- String form of `urlparse(u).scheme`. -/
def urlScheme (u : String) : String := String.mk (schemeChars u.data)

/-- String form of `urlparse(u).netloc`. -/
def urlNetloc (u : String) : String := String.mk (netlocChars u.data)

/-- String form of `urlparse(u).path`. -/
def urlPath (u : String) : String := String.mk (pathChars u.data)

/-- The resolution `urljoin(base_url, href)` performed at line 330, for the
hrefs the loop accepts (those beginning with `/`): a `//`-href keeps only the
base scheme; otherwise the base origin is kept and the path replaced. -/
def urljoinSlash (base href : String) : String :=
  if pyStartsWith href "//" then urlScheme base ++ ":" ++ href
  else urlScheme base ++ "://" ++ urlNetloc base ++ href

/-- Model of Python's `str.lstrip('/')`. -/
def lstripSlash (s : String) : String :=
  String.mk (s.data.dropWhile (fun c => c == '/'))

/-- Model of `str.replace('/', '_')`. -/
def replaceSlash (s : String) : String :=
  String.mk (s.data.map (fun c => if c == '/' then '_' else c))

/-- The `safe_path` of lines 345-347: leading slashes stripped, empty path
becomes `index`. -/
def safePathOf (path : String) : String :=
  if lstripSlash path = "" then "index" else lstripSlash path

/-- The pre-truncation `safe_filename` of line 350: slashes of `safe_path`
replaced by underscores. -/
def safeFilenameRaw (path : String) : String :=
  replaceSlash (safePathOf path)

/-- The filename derivation of lines 343-355 as a function of the URL path:
over 100 characters, truncate to 90 and append `_` and the first 10 hex
characters of the MD5 of the full `safe_path`. -/
def safeFilenameOfPath (path : String) : String :=
  if 100 < (safeFilenameRaw path).length then
    String.mk ((safeFilenameRaw path).data.take 90) ++ "_" ++
      String.mk ((md5Hex (safePathOf path)).data.take 10)
  else safeFilenameRaw path

/-- Run-wide configuration of the walk: entry URL, output directory, compiled
ignore patterns (each `re.search` is a predicate on the full URL),
`check_title_duplicate`, and the external collaborators. -/
structure WalkCfg where
  base : String
  outDir : String
  ignores : List (String → Bool)
  checkDup : Bool
  getTitle : String → Option String
  fetchOf : String → FetchResult
  now : String

/-- Mutable state of the loop: `processed_urls`, the cache, the file system,
the title index, and the trace of URLs for which a GET was issued. -/
structure WalkState where
  processed : List String
  cache : Cache
  fs : FS
  titles : TitleMap
  fetched : List String

/-- One iteration of the `for link in links` loop (lines 327-360): accept
only hrefs starting with `/`; resolve; skip already-processed and ignored
URLs; otherwise derive the output filename and run the handler. -/
def stepLink (cfg : WalkCfg) (st : WalkState) (href? : Option String) : WalkState :=
  match href? with
  | none => st
  | some href =>
    if pyStartsWith href "/" then
      let u := urljoinSlash cfg.base href
      if st.processed.contains u then st
      else
        let st1 : WalkState := { st with processed := u :: st.processed }
        if cfg.ignores.any (fun p => p u) then st1
        else
          let out := cfg.outDir ++ "/" ++ safeFilenameOfPath (urlPath u) ++ ".html"
          let r := save_webpage_as_html cfg.getTitle cfg.now u out st1.cache st1.fs
            (if cfg.checkDup then some st1.titles else none) (cfg.fetchOf u)
          { processed := st1.processed
            cache := r.cache
            fs := r.fs
            titles := r.titles.getD st1.titles
            fetched := st1.fetched ++ [u] }
    else st

/-- The whole loop over the links found on the entry page. -/
def walkLinks (cfg : WalkCfg) (links : List (Option String)) (st : WalkState) : WalkState :=
  links.foldl (stepLink cfg) st

/-! ## Helper lemmas about the title phase -/

/-- Updating a cache at a key and reading it back gives the new record. -/
theorem updCache_self (c : Cache) (u : String) (r : Record) : updCache c u r u = some r := by
  simp [updCache]

/-- The title block touches only the `title` field of the URL's record. -/
theorem titlePhase_cache_fields (gt : String → Option String) (url out : String)
    (cache : Cache) (tm? : Option TitleMap) (b : String) :
    (((titlePhase gt url out cache tm? b).1 url).getD {}).md5 = ((cache url).getD {}).md5 ∧
    (((titlePhase gt url out cache tm? b).1 url).getD {}).etag = ((cache url).getD {}).etag ∧
    (((titlePhase gt url out cache tm? b).1 url).getD {}).last_modified
      = ((cache url).getD {}).last_modified ∧
    (((titlePhase gt url out cache tm? b).1 url).getD {}).last_download
      = ((cache url).getD {}).last_download := by
  unfold titlePhase
  cases gt b with
  | none => simp
  | some t =>
    by_cases ht : t = ""
    · simp [ht]
    · by_cases hd : dupHit tm? t
      · simp [ht, hd, updCache]
      · cases tm? <;> simp [ht, hd, updCache]

/-- The title block leaves the cached digest of every URL unchanged. -/
theorem titlePhase_bind_md5 (gt : String → Option String) (url out : String)
    (cache : Cache) (tm? : Option TitleMap) (b : String) :
    ((titlePhase gt url out cache tm? b).1 url).bind Record.md5
      = (cache url).bind Record.md5 := by
  unfold titlePhase
  cases gt b with
  | none => rfl
  | some t =>
    by_cases ht : t = ""
    · simp [ht]
    · by_cases hd : dupHit tm? t
      · simp [ht, hd, updCache]
        cases cache url <;> simp
      · cases tm? <;> simp [ht, hd, updCache] <;> cases cache url <;> simp

/-- `content_changed` does not see the title phase: it reads the cache only
through the URL's stored digest. -/
theorem contentChangedB_titlePhase (gt : String → Option String) (url out : String)
    (cache : Cache) (tm? : Option TitleMap) (b : String) (fs : FS) (d : String) :
    contentChangedB (titlePhase gt url out cache tm? b).1 fs url out d
      = contentChangedB cache fs url out d := by
  unfold contentChangedB
  rw [titlePhase_bind_md5]

/-- On a non-304, non-error response that is not a duplicate-title skip, the
handler is the title phase followed by the reconcile block. -/
theorem save_eq_reconcile (getTitle : String → Option String) (now url out : String)
    (cache : Cache) (fs : FS) (tm? : Option TitleMap) (resp : Response)
    (h304 : resp.status ≠ 304) (h400 : resp.status < 400)
    (hsup : (titlePhase getTitle url out cache tm? resp.body).2.2 = false) :
    save_webpage_as_html getTitle now url out cache fs tm? (.ok resp) =
      reconcile now url out resp (titlePhase getTitle url out cache tm? resp.body).1 fs
        (titlePhase getTitle url out cache tm? resp.body).2.1 := by
  have hb : (resp.status == 304) = false := by
    simp only [beq_eq_false_iff_ne, ne_eq]
    exact h304
  have h4 : ¬ (400 ≤ resp.status) := by omega
  rcases htp : titlePhase getTitle url out cache tm? resp.body with ⟨c1, tm1, sup⟩
  have hs : sup = false := by
    have := hsup
    rw [htp] at this
    exact this
  simp [save_webpage_as_html, hb, h4, htp, hs]

/-- The cached-digest test (claim step 2) decides `content_changed` first. -/
theorem contentChangedB_false_of_cached (cache : Cache) (fs : FS) (url out d : String)
    (h : (cache url).bind Record.md5 = some d) :
    contentChangedB cache fs url out d = false := by
  simp [contentChangedB, h]

/-- When the cached digest differs, a matching on-disk file decides Skip
(claim step 3). -/
theorem contentChangedB_false_of_file (cache : Cache) (fs : FS) (url out d ex : String)
    (h : (cache url).bind Record.md5 ≠ some d) (hex : fs out = some ex)
    (hm : calculate_md5 ex = d) :
    contentChangedB cache fs url out d = false := by
  have hb : ((cache url).bind Record.md5 == some d) = false := by
    simp only [beq_eq_false_iff_ne, ne_eq]
    exact h
  simp [contentChangedB, hb, hex, hm]

/-- With no digest match anywhere, `content_changed` stays true (claim step 4). -/
theorem contentChangedB_true (cache : Cache) (fs : FS) (url out d : String)
    (h : (cache url).bind Record.md5 ≠ some d)
    (hex : ∀ ex, fs out = some ex → ¬ calculate_md5 ex = d) :
    contentChangedB cache fs url out d = true := by
  have hb : ((cache url).bind Record.md5 == some d) = false := by
    simp only [beq_eq_false_iff_ne, ne_eq]
    exact h
  cases hfs : fs out with
  | none => simp [contentChangedB, hb, hfs]
  | some ex => simp [contentChangedB, hb, hfs, hex ex hfs]

/-! ## Claim C2: the 304 short-circuit -/

/-- C2: for every URL whose conditional fetch returns 304 Not Modified, the
handler returns without writing a file, without extracting a title and
without computing a digest, whatever the cache held: lines 130-133 return
before `get_page_title` (line 138) and `calculate_md5` (line 170) run. -/
theorem not_modified_short_circuit (getTitle : String → Option String)
    (now url out : String) (cache : Cache) (fs : FS) (tm? : Option TitleMap)
    (resp : Response) (h304 : resp.status = 304) :
    save_webpage_as_html getTitle now url out cache fs tm? (.ok resp) =
      ⟨false, cache, fs, tm?, false, false⟩ := by
  simp [save_webpage_as_html, h304]

/-- Witness for C2 at a concrete 304 response carrying a cached digest that
differs from the body's. -/
theorem not_modified_short_circuit_witness :
    ({ status := 304, etag := some "e2", body := "<p>changed</p>" } : Response).status = 304 ∧
    save_webpage_as_html (fun _ => some "T") "2025-01-01" "http://h/a" "o/a.html"
        (fun v => if v = "http://h/a" then some { md5 := some "stale", etag := some "e1" } else none)
        (fun _ => none) none
        (.ok { status := 304, etag := some "e2", body := "<p>changed</p>" }) =
      ⟨false,
        (fun v => if v = "http://h/a" then some { md5 := some "stale", etag := some "e1" } else none),
        (fun _ => none), none, false, false⟩ :=
  ⟨rfl, not_modified_short_circuit _ _ _ _ _ _ _ _ rfl⟩

/-! ## Claim C9: transport failures are contained -/

/-- C9: a connection error (the raised `RequestException` of line 249) or an
error status (4xx/5xx, raised by `raise_for_status` at line 135) leaves the
cache, the file system and the title index untouched, and the walk goes on
with the remaining links: the loop body catches everything per URL. -/
theorem transport_failure_contained :
    (∀ (getTitle : String → Option String) (now url out : String) (cache : Cache)
        (fs : FS) (tm? : Option TitleMap),
      save_webpage_as_html getTitle now url out cache fs tm? .err =
        ⟨false, cache, fs, tm?, false, false⟩) ∧
    (∀ (getTitle : String → Option String) (now url out : String) (cache : Cache)
        (fs : FS) (tm? : Option TitleMap) (resp : Response), 400 ≤ resp.status →
      save_webpage_as_html getTitle now url out cache fs tm? (.ok resp) =
        ⟨false, cache, fs, tm?, false, false⟩) ∧
    (∀ (cfg : WalkCfg) (st : WalkState) (href : String) (rest : List (Option String)),
      pyStartsWith href "/" = true →
      st.processed.contains (urljoinSlash cfg.base href) = false →
      cfg.ignores.any (fun p => p (urljoinSlash cfg.base href)) = false →
      cfg.fetchOf (urljoinSlash cfg.base href) = .err →
      walkLinks cfg (some href :: rest) st =
        walkLinks cfg rest
          { processed := urljoinSlash cfg.base href :: st.processed
            cache := st.cache
            fs := st.fs
            titles := st.titles
            fetched := st.fetched ++ [urljoinSlash cfg.base href] }) := by
  refine ⟨fun _ _ _ _ _ _ _ => rfl, ?_, ?_⟩
  · intro getTitle now url out cache fs tm? resp h400
    have hb : (resp.status == 304) = false := by
      simp only [beq_eq_false_iff_ne, ne_eq]
      omega
    simp [save_webpage_as_html, hb, h400]
  · intro cfg st href rest hs hp hi hf
    show List.foldl (stepLink cfg) st (some href :: rest) = _
    simp only [List.foldl_cons]
    congr 1
    simp [stepLink, hs, hp, hi, hf, save_webpage_as_html]
    have hp2 : urljoinSlash cfg.base href ∉ st.processed := by simpa using hp
    rw [if_neg hp2]
    cases hc : cfg.checkDup <;> simp

/-- Witness for C9: a concrete failing URL between two processed links. -/
theorem transport_failure_contained_witness :
    pyStartsWith "/bad" "/" = true ∧
    ([] : List String).contains (urljoinSlash "http://h" "/bad") = false ∧
    walkLinks
        { base := "http://h", outDir := "o", ignores := [], checkDup := false,
          getTitle := fun _ => none, fetchOf := fun _ => .err, now := "t0" }
        [some "/bad"]
        { processed := [], cache := fun _ => none, fs := fun _ => none,
          titles := fun _ => none, fetched := [] } =
      walkLinks
        { base := "http://h", outDir := "o", ignores := [], checkDup := false,
          getTitle := fun _ => none, fetchOf := fun _ => .err, now := "t0" }
        []
        { processed := [urljoinSlash "http://h" "/bad"], cache := fun _ => none,
          fs := fun _ => none, titles := fun _ => none,
          fetched := [] ++ [urljoinSlash "http://h" "/bad"] } :=
  ⟨rfl, rfl,
    (transport_failure_contained.2.2)
      { base := "http://h", outDir := "o", ignores := [], checkDup := false,
        getTitle := fun _ => none, fetchOf := fun _ => .err, now := "t0" }
      { processed := [], cache := fun _ => none, fs := fun _ => none,
        titles := fun _ => none, fetched := [] }
      "/bad" [] rfl rfl rfl rfl⟩

/-! ## Claim C1: the reconciler's disposition order -/

/-- C1: on a fetched non-304 (and non-error) page that the duplicate-title
detector does not suppress, the disposition follows the strict order of
lines 169-231: a cached-digest match skips; otherwise an on-disk digest
match skips; otherwise the raw body is written verbatim to the target
path. -/
theorem reconciler_disposition_order (getTitle : String → Option String)
    (now url out : String) (cache : Cache) (fs : FS) (tm? : Option TitleMap)
    (resp : Response) (res : SaveResult)
    (hres : res = save_webpage_as_html getTitle now url out cache fs tm? (.ok resp))
    (h304 : resp.status ≠ 304) (h400 : resp.status < 400)
    (hsup : (titlePhase getTitle url out cache tm? resp.body).2.2 = false) :
    ((cache url).bind Record.md5 = some (calculate_md5 resp.body) →
      res.fs = fs ∧ res.saved = false) ∧
    (∀ ex, (cache url).bind Record.md5 ≠ some (calculate_md5 resp.body) →
      fs out = some ex → calculate_md5 ex = calculate_md5 resp.body →
      res.fs = fs ∧ res.saved = false) ∧
    ((cache url).bind Record.md5 ≠ some (calculate_md5 resp.body) →
      (∀ ex, fs out = some ex → ¬ calculate_md5 ex = calculate_md5 resp.body) →
      res.fs = updFS fs out resp.body ∧ res.fs out = some resp.body ∧
      res.saved = true) := by
  subst hres
  rw [save_eq_reconcile _ _ _ _ _ _ _ _ h304 h400 hsup]
  have hccEq := contentChangedB_titlePhase getTitle url out cache tm? resp.body fs
    (calculate_md5 resp.body)
  refine ⟨?_, ?_, ?_⟩
  · intro hc
    have hcc := contentChangedB_false_of_cached cache fs url out _ hc
    simp only [reconcile]
    rw [hccEq, hcc]
    simp
  · intro ex hc hex hm
    have hcc := contentChangedB_false_of_file cache fs url out _ ex hc hex hm
    simp only [reconcile]
    rw [hccEq, hcc]
    simp
  · intro hc hex
    have hcc := contentChangedB_true cache fs url out _ hc hex
    simp only [reconcile]
    rw [hccEq, hcc]
    simp [updFS]

/-- Witness for C1: fresh URL, empty cache and file system, so the Write arm
fires and the raw body lands at the target path. -/
theorem reconciler_disposition_order_witness :
    (200 : Nat) ≠ 304 ∧ (200 : Nat) < 400 ∧
    (titlePhase (fun _ => none) "http://h/a" "o/a.html" (fun _ => none) none "<p>New</p>").2.2
      = false ∧
    ((save_webpage_as_html (fun _ => none) "2025-01-01" "http://h/a" "o/a.html"
        (fun _ => none) (fun _ => none) none
        (.ok { status := 200, body := "<p>New</p>" })).fs =
      updFS (fun _ => none) "o/a.html" "<p>New</p>" ∧
     (save_webpage_as_html (fun _ => none) "2025-01-01" "http://h/a" "o/a.html"
        (fun _ => none) (fun _ => none) none
        (.ok { status := 200, body := "<p>New</p>" })).fs "o/a.html" = some "<p>New</p>" ∧
     (save_webpage_as_html (fun _ => none) "2025-01-01" "http://h/a" "o/a.html"
        (fun _ => none) (fun _ => none) none
        (.ok { status := 200, body := "<p>New</p>" })).saved = true) :=
  ⟨by decide, by decide, rfl,
    (reconciler_disposition_order (fun _ => none) "2025-01-01" "http://h/a" "o/a.html"
        (fun _ => none) (fun _ => none) none
        { status := 200, body := "<p>New</p>" } _ rfl (by decide) (by decide) rfl).2.2
      (fun h => Option.noConfusion h) (fun ex h => absurd h (fun h2 => Option.noConfusion h2))⟩

/-! ## Claim C3: the record-update policy per disposition -/

/-- C3: the cache-record mutation per disposition — on a digest-decided Skip
(lines 217-227) `md5`, `etag`, `last_modified` take the freshly observed
values and `last_download` is untouched; on a Write (lines 233-244)
`last_download` is additionally stamped; on a 304 (line 131) the record is
left entirely unchanged. -/
theorem cache_record_update_policy (getTitle : String → Option String)
    (now url out : String) (cache : Cache) (fs : FS) (tm? : Option TitleMap)
    (resp : Response) (e l : String) (res : SaveResult)
    (hres : res = save_webpage_as_html getTitle now url out cache fs tm? (.ok resp)) :
    (resp.status = 304 → res = ⟨false, cache, fs, tm?, false, false⟩) ∧
    (resp.status ≠ 304 → resp.status < 400 →
      (titlePhase getTitle url out cache tm? resp.body).2.2 = false →
      resp.etag = some e → resp.lastModified = some l →
      ((contentChangedB cache fs url out (calculate_md5 resp.body) = false →
        ∃ rr, res.cache url = some rr ∧ rr.md5 = some (calculate_md5 resp.body) ∧
          rr.etag = some e ∧ rr.last_modified = some l ∧
          rr.last_download = ((cache url).getD {}).last_download ∧ res.saved = false) ∧
       (contentChangedB cache fs url out (calculate_md5 resp.body) = true →
        ∃ rr, res.cache url = some rr ∧ rr.md5 = some (calculate_md5 resp.body) ∧
          rr.etag = some e ∧ rr.last_modified = some l ∧
          rr.last_download = some now ∧ res.saved = true))) := by
  subst hres
  constructor
  · intro h304
    simp [save_webpage_as_html, h304]
  · intro h304 h400 hsup he hl
    rw [save_eq_reconcile _ _ _ _ _ _ _ _ h304 h400 hsup]
    have hccEq := contentChangedB_titlePhase getTitle url out cache tm? resp.body fs
      (calculate_md5 resp.body)
    have hfields := titlePhase_cache_fields getTitle url out cache tm? resp.body
    constructor
    · intro hcc
      simp only [reconcile]
      rw [hccEq, hcc]
      refine ⟨_, updCache_self _ _ _, rfl, ?_, ?_, ?_, rfl⟩
      · rw [he]
        rfl
      · rw [hl]
        rfl
      · exact hfields.2.2.2
    · intro hcc
      simp only [reconcile]
      rw [hccEq, hcc]
      refine ⟨_, updCache_self _ _ _, rfl, ?_, ?_, rfl, rfl⟩
      · rw [he]
        rfl
      · rw [hl]
        rfl

/-- Witness for C3: the Skip-by-cached-digest arm at a concrete response
with both validators, plus the 304 arm. -/
theorem cache_record_update_policy_witness :
    (contentChangedB
        (fun v => if v = "http://h/a" then
          some { md5 := some (calculate_md5 "<p>B</p>"), etag := some "e0",
                 last_download := some "2024-01-01" } else none)
        (fun _ => none) "http://h/a" "o/a.html" (calculate_md5 "<p>B</p>") = false) ∧
    (∃ rr,
      (save_webpage_as_html (fun _ => none) "2025-06-30" "http://h/a" "o/a.html"
          (fun v => if v = "http://h/a" then
            some { md5 := some (calculate_md5 "<p>B</p>"), etag := some "e0",
                   last_download := some "2024-01-01" } else none)
          (fun _ => none) none
          (.ok { status := 200, etag := some "e9", lastModified := some "lm9",
                 body := "<p>B</p>" })).cache "http://h/a" = some rr ∧
      rr.md5 = some (calculate_md5 "<p>B</p>") ∧ rr.etag = some "e9" ∧
      rr.last_modified = some "lm9" ∧ rr.last_download = some "2024-01-01" ∧
      (save_webpage_as_html (fun _ => none) "2025-06-30" "http://h/a" "o/a.html"
          (fun v => if v = "http://h/a" then
            some { md5 := some (calculate_md5 "<p>B</p>"), etag := some "e0",
                   last_download := some "2024-01-01" } else none)
          (fun _ => none) none
          (.ok { status := 200, etag := some "e9", lastModified := some "lm9",
                 body := "<p>B</p>" })).saved = false) :=
  ⟨contentChangedB_false_of_cached _ _ _ _ _ rfl,
    ((cache_record_update_policy (fun _ => none) "2025-06-30" "http://h/a" "o/a.html"
        (fun v => if v = "http://h/a" then
          some { md5 := some (calculate_md5 "<p>B</p>"), etag := some "e0",
                 last_download := some "2024-01-01" } else none)
        (fun _ => none) none
        { status := 200, etag := some "e9", lastModified := some "lm9", body := "<p>B</p>" }
        "e9" "lm9" _ rfl).2 (by decide) (by decide) rfl rfl rfl).1
      (contentChangedB_false_of_cached _ _ _ _ _ rfl)⟩

/-! ## Claim C5: duplicate-title skip and the validators -/

/-- Amended C5: on a duplicate-title skip no file is written and the title is
recorded in the URL's cache record, but — contrary to the claim — the
response's entity tag and last-modified validators are NOT recorded: lines
144-149 return before the validator updates of lines 217-227 / 240-244. -/
theorem duplicate_title_skip_keeps_old_validators
    (getTitle : String → Option String) (now url out : String) (cache : Cache)
    (fs : FS) (tm : TitleMap) (resp : Response) (t f : String)
    (h304 : resp.status ≠ 304) (h400 : resp.status < 400)
    (ht : getTitle resp.body = some t) (hne : t ≠ "") (hdup : tm t = some f) :
    save_webpage_as_html getTitle now url out cache fs (some tm) (.ok resp) =
      ⟨false, updCache cache url { (cache url).getD {} with title := some t },
        fs, some tm, false, true⟩ ∧
    ((updCache cache url { (cache url).getD {} with title := some t } url).getD {}).etag
      = ((cache url).getD {}).etag ∧
    ((updCache cache url { (cache url).getD {} with title := some t } url).getD {}).last_modified
      = ((cache url).getD {}).last_modified := by
  have hb : (resp.status == 304) = false := by
    simp only [beq_eq_false_iff_ne, ne_eq]
    exact h304
  have h4 : ¬ (400 ≤ resp.status) := by omega
  have hd : dupHit (some tm) t = true := by simp [dupHit, hdup]
  refine ⟨?_, by simp [updCache], by simp [updCache]⟩
  simp [save_webpage_as_html, hb, h4, titlePhase, ht, hne, hd]

/-- Witness for the amended C5 at a concrete duplicate-title collision. -/
theorem duplicate_title_skip_keeps_old_validators_witness :
    (200 : Nat) ≠ 304 ∧ (200 : Nat) < 400 ∧
    ((fun _ => some "Intro") : String → Option String) "B2" = some "Intro" ∧
    ("Intro" : String) ≠ "" ∧
    ((fun v => if v = "Intro" then some "existing.html" else none) : TitleMap) "Intro"
      = some "existing.html" ∧
    save_webpage_as_html (fun _ => some "Intro") "2025-01-01" "http://h/b" "o/b.html"
        (fun _ => none) (fun _ => none)
        (some fun v => if v = "Intro" then some "existing.html" else none)
        (.ok { status := 200, etag := some "E", body := "B2" }) =
      ⟨false,
        updCache (fun _ => none) "http://h/b"
          { (((fun _ => none) : Cache) "http://h/b").getD {} with title := some "Intro" },
        (fun _ => none),
        some fun v => if v = "Intro" then some "existing.html" else none,
        false, true⟩ :=
  ⟨by decide, by decide, rfl, by decide, rfl,
    (duplicate_title_skip_keeps_old_validators (fun _ => some "Intro") "2025-01-01"
      "http://h/b" "o/b.html" (fun _ => none) (fun _ => none)
      (fun v => if v = "Intro" then some "existing.html" else none)
      { status := 200, etag := some "E", body := "B2" } "Intro" "existing.html"
      (by decide) (by decide) rfl (by decide) rfl).1⟩

/-- Counterexample to C5 as stated: a concrete duplicate-title skip where the
response carries fresh validators and the record afterwards still holds the
old entity tag and no last-modified value. -/
theorem duplicate_title_skip_validators_cex :
    (save_webpage_as_html (fun _ => some "Intro") "2025-01-01" "http://h/intro-copy" "o/x.html"
        (fun v => if v = "http://h/intro-copy" then some { etag := some "old-etag" } else none)
        (fun _ => none)
        (some fun v => if v = "Intro" then some "existing.html" else none)
        (.ok { status := 200, etag := some "new-etag", lastModified := some "new-lm",
               body := "B" })).saved = false ∧
    ((save_webpage_as_html (fun _ => some "Intro") "2025-01-01" "http://h/intro-copy" "o/x.html"
        (fun v => if v = "http://h/intro-copy" then some { etag := some "old-etag" } else none)
        (fun _ => none)
        (some fun v => if v = "Intro" then some "existing.html" else none)
        (.ok { status := 200, etag := some "new-etag", lastModified := some "new-lm",
               body := "B" })).cache "http://h/intro-copy").getD {}
      = { etag := some "old-etag", title := some "Intro" } ∧
    ¬ (((save_webpage_as_html (fun _ => some "Intro") "2025-01-01" "http://h/intro-copy" "o/x.html"
        (fun v => if v = "http://h/intro-copy" then some { etag := some "old-etag" } else none)
        (fun _ => none)
        (some fun v => if v = "Intro" then some "existing.html" else none)
        (.ok { status := 200, etag := some "new-etag", lastModified := some "new-lm",
               body := "B" })).cache "http://h/intro-copy").getD {}).etag = some "new-etag" := by
  refine ⟨rfl, rfl, by decide⟩

/-! ## Claim C7: provenance and origin of walked URLs -/

/-- takeWhile runs through a first segment all of whose members pass. -/
theorem takeWhile_append_all {α : Type} (p : α → Bool) (a b : List α)
    (h : ∀ c ∈ a, p c = true) :
    (a ++ b).takeWhile p = a ++ b.takeWhile p := by
  induction a with
  | nil => simp
  | cons x xs ih =>
    have hx := h x (by simp)
    simp only [List.cons_append, List.takeWhile_cons, hx, if_true]
    rw [ih (fun c hc => h c (by simp [hc]))]

/-- dropWhile runs through a first segment all of whose members pass. -/
theorem dropWhile_append_all {α : Type} (p : α → Bool) (a b : List α)
    (h : ∀ c ∈ a, p c = true) :
    (a ++ b).dropWhile p = b.dropWhile p := by
  induction a with
  | nil => simp
  | cons x xs ih =>
    have hx := h x (by simp)
    simp only [List.cons_append, List.dropWhile_cons, hx, if_true]
    exact ih (fun c hc => h c (by simp [hc]))

/-- Every character the scheme parser keeps differs from `:`. -/
theorem schemeChars_no_colon (l : List Char) :
    ∀ c ∈ schemeChars l, (!(c == ':')) = true := by
  intro c hc
  unfold schemeChars at hc
  split at hc
  · exact List.mem_takeWhile_imp (p := fun c => !(c == ':')) hc
  · cases hc

/-- Every character the netloc parser keeps survives `endsNetloc`. -/
theorem netlocChars_ok (l : List Char) :
    ∀ c ∈ netlocChars l, (!(endsNetloc c)) = true := by
  intro c hc
  unfold netlocChars at hc
  split at hc
  · exact List.mem_takeWhile_imp (p := fun c => !(endsNetloc c)) hc
  · cases hc

/-- Parsing a URL assembled as `scheme://netloc` + slash-path recovers the
scheme and netloc components. -/
theorem parse_assembled (S N rest : List Char)
    (hS : ∀ c ∈ S, (!(c == ':')) = true)
    (hN : ∀ c ∈ N, (!(endsNetloc c)) = true) :
    schemeChars (S ++ ':' :: '/' :: '/' :: (N ++ '/' :: rest)) = S ∧
    netlocChars (S ++ ':' :: '/' :: '/' :: (N ++ '/' :: rest)) = N := by
  have hmem : (S ++ ':' :: '/' :: '/' :: (N ++ '/' :: rest)).contains ':' = true := by
    simp
  have htake : (S ++ ':' :: '/' :: '/' :: (N ++ '/' :: rest)).takeWhile
      (fun c => !(c == ':')) = S := by
    rw [takeWhile_append_all _ _ _ hS]
    simp [List.takeWhile_cons]
  have hdrop : (S ++ ':' :: '/' :: '/' :: (N ++ '/' :: rest)).dropWhile
      (fun c => !(c == ':')) = ':' :: '/' :: '/' :: (N ++ '/' :: rest) := by
    rw [dropWhile_append_all _ _ _ hS]
    simp [List.dropWhile_cons]
  have hafter : afterScheme (S ++ ':' :: '/' :: '/' :: (N ++ '/' :: rest)) =
      '/' :: '/' :: (N ++ '/' :: rest) := by
    unfold afterScheme
    rw [if_pos hmem, hdrop]
    rfl
  constructor
  · unfold schemeChars
    rw [if_pos hmem, htake]
  · unfold netlocChars
    rw [hafter]
    simp only [List.take_succ_cons, List.take_zero, List.drop_succ_cons, List.drop_zero,
      if_pos]
    rw [takeWhile_append_all _ _ _ hN]
    simp [List.takeWhile_cons, endsNetloc]

/-- A URL the loop fetched at one step came from a slash-href of that step. -/
theorem stepLink_fetched (cfg : WalkCfg) (st : WalkState) (l : Option String) (u : String)
    (h : u ∈ (stepLink cfg st l).fetched) :
    u ∈ st.fetched ∨ ∃ href, l = some href ∧ pyStartsWith href "/" = true ∧
      u = urljoinSlash cfg.base href := by
  cases l with
  | none => exact Or.inl h
  | some href =>
    by_cases hs : pyStartsWith href "/" = true
    · simp only [stepLink, hs, if_true] at h
      by_cases hp : st.processed.contains (urljoinSlash cfg.base href)
      · rw [if_pos hp] at h
        exact Or.inl h
      · rw [if_neg hp] at h
        by_cases hi : cfg.ignores.any (fun p => p (urljoinSlash cfg.base href))
        · rw [if_pos hi] at h
          exact Or.inl h
        · rw [if_neg hi] at h
          simp only [List.mem_append, List.mem_singleton] at h
          cases h with
          | inl h => exact Or.inl h
          | inr h => exact Or.inr ⟨href, rfl, hs, h⟩
    · simp only [stepLink, hs] at h
      simp only [Bool.not_eq_true] at hs
      rw [if_neg (by simp [hs])] at h
      exact Or.inl h

/-- Amended C7: every URL the walk fetches resolves a slash-prefixed href of
the entry page (lines 327-330); a href not beginning with `//` keeps the base
URL's scheme and authority, while a protocol-relative `//` href — which the
`startswith('/')` test accepts — carries its own authority and may leave the
origin. -/
theorem walk_links_same_origin_qualified :
    (∀ (cfg : WalkCfg) (links : List (Option String)) (st : WalkState) (u : String),
      u ∈ (walkLinks cfg links st).fetched →
      u ∈ st.fetched ∨ ∃ href, some href ∈ links ∧ pyStartsWith href "/" = true ∧
        u = urljoinSlash cfg.base href) ∧
    (∀ (base href : String), pyStartsWith href "/" = true →
      pyStartsWith href "//" = false →
      urlScheme (urljoinSlash base href) = urlScheme base ∧
      urlNetloc (urljoinSlash base href) = urlNetloc base) := by
  constructor
  · intro cfg links
    induction links with
    | nil => intro st u h; exact Or.inl h
    | cons l ls ih =>
      intro st u h
      have h2 : u ∈ (walkLinks cfg ls (stepLink cfg st l)).fetched := h
      cases ih (stepLink cfg st l) u h2 with
      | inl hin =>
        cases stepLink_fetched cfg st l u hin with
        | inl hst => exact Or.inl hst
        | inr hex =>
          obtain ⟨href, hl, hs, hu⟩ := hex
          exact Or.inr ⟨href, by simp [hl], hs, hu⟩
      | inr hex =>
        obtain ⟨href, hl, hs, hu⟩ := hex
        exact Or.inr ⟨href, by simp [hl], hs, hu⟩
  · intro base href h1 h2
    have hpre : ∃ hr, href.data = '/' :: hr := by
      have : String.data "/" <+: href.data := by
        have := h1
        unfold pyStartsWith at this
        exact List.isPrefixOf_iff_prefix.mp this
      obtain ⟨t, ht⟩ := this
      exact ⟨t, ht.symm⟩
    obtain ⟨hr, hhr⟩ := hpre
    have hjoin : urljoinSlash base href =
        urlScheme base ++ "://" ++ urlNetloc base ++ href := by
      unfold urljoinSlash
      rw [if_neg (by simp [h2])]
    have hdata : (urljoinSlash base href).data =
        schemeChars base.data ++ ':' :: '/' :: '/' ::
          (netlocChars base.data ++ '/' :: hr) := by
      rw [hjoin]
      show (urlScheme base ++ "://" ++ urlNetloc base ++ href).data = _
      simp only [String.data_append]
      rw [hhr]
      show schemeChars base.data ++ [':', '/', '/'] ++ netlocChars base.data ++ '/' :: hr = _
      simp [List.append_assoc]
    obtain ⟨hsch, hnet⟩ := parse_assembled (schemeChars base.data)
      (netlocChars base.data) hr (schemeChars_no_colon _) (netlocChars_ok _)
    constructor
    · show String.mk (schemeChars (urljoinSlash base href).data) = _
      rw [hdata, hsch]
      rfl
    · show String.mk (netlocChars (urljoinSlash base href).data) = _
      rw [hdata, hnet]
      rfl

/-- Witness for the amended C7 at a concrete walk of one link. -/
theorem walk_links_same_origin_qualified_witness :
    "http://h.io/a" ∈ (walkLinks
      { base := "http://h.io", outDir := "o", ignores := [], checkDup := false,
        getTitle := fun _ => none, fetchOf := fun _ => .err, now := "t" }
      [some "/a"]
      { processed := [], cache := fun _ => none, fs := fun _ => none,
        titles := fun _ => none, fetched := [] }).fetched ∧
    ("http://h.io/a" ∈ ([] : List String) ∨
      ∃ href, some href ∈ [some "/a"] ∧ pyStartsWith href "/" = true ∧
        "http://h.io/a" = urljoinSlash "http://h.io" href) ∧
    pyStartsWith "/a" "/" = true ∧ pyStartsWith "/a" "//" = false ∧
    urlScheme (urljoinSlash "http://h.io" "/a") = urlScheme "http://h.io" ∧
    urlNetloc (urljoinSlash "http://h.io" "/a") = urlNetloc "http://h.io" :=
  ⟨by decide,
    walk_links_same_origin_qualified.1
      { base := "http://h.io", outDir := "o", ignores := [], checkDup := false,
        getTitle := fun _ => none, fetchOf := fun _ => .err, now := "t" }
      [some "/a"]
      { processed := [], cache := fun _ => none, fs := fun _ => none,
        titles := fun _ => none, fetched := [] }
      "http://h.io/a" (by decide),
    by decide, by decide,
    (walk_links_same_origin_qualified.2 "http://h.io" "/a" (by decide) (by decide)).1,
    (walk_links_same_origin_qualified.2 "http://h.io" "/a" (by decide) (by decide)).2⟩

/-- Counterexample to C7 as stated: the entry page carries the
protocol-relative href `//evil.com/x`; it starts with `/`, so the loop
resolves and fetches `http://evil.com/x`, whose authority differs from the
entry page's. -/
theorem cross_origin_fetch_cex :
    "http://evil.com/x" ∈ (walkLinks
      { base := "http://good.com", outDir := "o", ignores := [], checkDup := false,
        getTitle := fun _ => none, fetchOf := fun _ => .err, now := "t" }
      [some "//evil.com/x"]
      { processed := [], cache := fun _ => none, fs := fun _ => none,
        titles := fun _ => none, fetched := [] }).fetched ∧
    urlNetloc "http://evil.com/x" ≠ urlNetloc "http://good.com" := by
  constructor
  · decide
  · decide

/-! ## Claim C8: filename derivation and collisions -/

/-- Every chunk step leaves all four MD5 state words below `2^32`. -/
theorem md5Chunk_bound (st : Nat × Nat × Nat × Nat) (chunk : List Nat) :
    (md5Chunk st chunk).1 < 2 ^ 32 ∧ (md5Chunk st chunk).2.1 < 2 ^ 32 ∧
    (md5Chunk st chunk).2.2.1 < 2 ^ 32 ∧ (md5Chunk st chunk).2.2.2 < 2 ^ 32 := by
  obtain ⟨a0, b0, c0, d0⟩ := st
  unfold md5Chunk
  rcases (List.range 64).foldl (md5Op (chunkWords chunk)) (a0, b0, c0, d0) with ⟨a, b, c, d⟩
  refine ⟨?_, ?_, ?_, ?_⟩ <;> exact Nat.mod_lt _ (by norm_num)

/-- The final MD5 state words are below `2^32`. -/
theorem md5Words_bound (msg : List Nat) :
    (md5Words msg).1 < 2 ^ 32 ∧ (md5Words msg).2.1 < 2 ^ 32 ∧
    (md5Words msg).2.2.1 < 2 ^ 32 ∧ (md5Words msg).2.2.2 < 2 ^ 32 := by
  unfold md5Words
  generalize chunks64 (md5Pad msg) = l
  induction l generalizing msg with
  | nil => refine ⟨by norm_num, by norm_num, by norm_num, by norm_num⟩
  | cons c cs ih =>
    show _ ∧ _ ∧ _ ∧ _
    have step : ∀ (st : Nat × Nat × Nat × Nat),
        (st.1 < 2 ^ 32 ∧ st.2.1 < 2 ^ 32 ∧ st.2.2.1 < 2 ^ 32 ∧ st.2.2.2 < 2 ^ 32) →
        ((cs.foldl md5Chunk st).1 < 2 ^ 32 ∧ (cs.foldl md5Chunk st).2.1 < 2 ^ 32 ∧
         (cs.foldl md5Chunk st).2.2.1 < 2 ^ 32 ∧ (cs.foldl md5Chunk st).2.2.2 < 2 ^ 32) := by
      clear ih
      induction cs with
      | nil => intro st h; exact h
      | cons x xs ih2 => intro st _; exact ih2 _ (md5Chunk_bound st x)
    exact step _ (md5Chunk_bound _ c)

/-- The 128-bit MD5 value is below `2^128`. -/
theorem md5Nat_lt (msg : List Nat) : md5Nat msg < 2 ^ 128 := by
  unfold md5Nat
  have h := md5Words_bound msg
  rcases hw : md5Words msg with ⟨a, b, c, d⟩
  rw [hw] at h
  obtain ⟨ha, hb, hc, hd⟩ := h
  simp only at ha hb hc hd ⊢
  have e32 : (2 : ℕ) ^ 32 = 4294967296 := by norm_num
  have e64 : (2 : ℕ) ^ 64 = 18446744073709551616 := by norm_num
  have e96 : (2 : ℕ) ^ 96 = 79228162514264337593543950336 := by norm_num
  have e128 : (2 : ℕ) ^ 128 = 340282366920938463463374607431768211456 := by norm_num
  rw [e32] at ha hb hc hd ⊢
  rw [e64, e96, e128]
  nlinarith

/-- The family of over-long slash-free paths used against the collision
claim: 101 letters `a` followed by `k` letters `b`. -/
def pathFam (k : Nat) : String :=
  String.mk (List.replicate 101 'a' ++ List.replicate k 'b')

/-- The family members pass the loop's filename derivation unchanged up to
truncation: no leading slash, nonempty, slash-free, longer than 100. -/
theorem pathFam_safePath (k : Nat) : safePathOf (pathFam k) = pathFam k := by
  have hlstrip : lstripSlash (pathFam k) = pathFam k := by
    unfold lstripSlash pathFam
    rw [List.replicate_succ, List.cons_append, List.dropWhile_cons]
    simp
  have hempty : pathFam k ≠ "" := by
    intro h
    have := congrArg (fun s => s.data.length) h
    simp [pathFam] at this
  unfold safePathOf
  rw [hlstrip, if_neg hempty]

/-- The raw (untruncated) filename of a family member is the member itself. -/
theorem pathFam_raw (k : Nat) : safeFilenameRaw (pathFam k) = pathFam k := by
  unfold safeFilenameRaw
  rw [pathFam_safePath]
  unfold replaceSlash pathFam
  simp [List.map_append, List.map_replicate]

/-- Length of a family member. -/
theorem pathFam_length (k : Nat) : (pathFam k).length = 101 + k := by
  show (List.replicate 101 'a' ++ List.replicate k 'b').length = 101 + k
  rw [List.length_append, List.length_replicate, List.length_replicate]

/-- All family members share their first 90 characters. -/
theorem pathFam_take90 (k : Nat) : (pathFam k).data.take 90 = List.replicate 90 'a' := by
  show (List.replicate 101 'a' ++ List.replicate k 'b').take 90 = _
  rw [List.take_append_of_le_length (by simp), List.take_replicate]
  norm_num

/-- The derived filename of a family member: shared stem, then the digest
head of the member. -/
theorem pathFam_filename (k : Nat) :
    safeFilenameOfPath (pathFam k) =
      String.mk (List.replicate 90 'a') ++ "_" ++
        String.mk ((md5Hex (pathFam k)).data.take 10) := by
  unfold safeFilenameOfPath
  rw [pathFam_raw, pathFam_safePath, if_pos (by rw [pathFam_length]; omega), pathFam_take90]

/-- Counterexample to C8 as stated: no fixed 10-hex-character digest can
separate every pair of over-long paths agreeing up to the truncation point —
the family `pathFam` is infinite while the appended digests range over the
finite set of 128-bit values, so by pigeonhole two distinct family members
share a filename. -/
theorem filename_collision_cex :
    ¬ (∀ p q : String,
        100 < (safeFilenameRaw p).length → 100 < (safeFilenameRaw q).length →
        (safeFilenameRaw p).data.take 90 = (safeFilenameRaw q).data.take 90 →
        p ≠ q → safeFilenameOfPath p ≠ safeFilenameOfPath q) := by
  intro h
  have hfaminj : ∀ k k2, pathFam k = pathFam k2 → k = k2 := by
    intro k k2 he
    have := congrArg String.length he
    rw [pathFam_length, pathFam_length] at this
    omega
  have hfn : ∀ k k2, md5Nat (utf8Bytes (pathFam k)) = md5Nat (utf8Bytes (pathFam k2)) →
      safeFilenameOfPath (pathFam k) = safeFilenameOfPath (pathFam k2) := by
    intro k k2 he
    rw [pathFam_filename, pathFam_filename]
    unfold md5Hex
    rw [he]
  have hg : Function.Injective (fun k => Fin.mk (md5Nat (utf8Bytes (pathFam k)))
      (md5Nat_lt (utf8Bytes (pathFam k))) : Nat → Fin (2 ^ 128)) := by
    intro k k2 he
    by_contra hne
    have hmd : md5Nat (utf8Bytes (pathFam k)) = md5Nat (utf8Bytes (pathFam k2)) :=
      congrArg Fin.val he
    have hpq : pathFam k ≠ pathFam k2 := fun hc => hne (hfaminj _ _ hc)
    exact h (pathFam k) (pathFam k2)
      (by rw [pathFam_raw, pathFam_length]; omega)
      (by rw [pathFam_raw, pathFam_length]; omega)
      (by rw [pathFam_raw, pathFam_raw, pathFam_take90, pathFam_take90])
      hpq (hfn _ _ hmd)
  haveI : Finite ℕ := Finite.of_injective _ hg
  exact not_finite ℕ

/-- Amended C8: the target filename is the deterministic function of the URL
path given by lines 343-355, and two over-long paths agreeing up to the
truncation point map to different filenames whenever the appended
10-character digests of their full paths differ (the digest makes a
collision improbable, not impossible). -/
theorem filename_derivation_amended :
    (∀ p : String, safeFilenameOfPath p =
      (if 100 < (safeFilenameRaw p).length then
        String.mk ((safeFilenameRaw p).data.take 90) ++ "_" ++
          String.mk ((md5Hex (safePathOf p)).data.take 10)
      else safeFilenameRaw p)) ∧
    (∀ p q : String,
      100 < (safeFilenameRaw p).length → 100 < (safeFilenameRaw q).length →
      (safeFilenameRaw p).data.take 90 = (safeFilenameRaw q).data.take 90 →
      (md5Hex (safePathOf p)).data.take 10 ≠ (md5Hex (safePathOf q)).data.take 10 →
      safeFilenameOfPath p ≠ safeFilenameOfPath q) := by
  refine ⟨fun p => rfl, ?_⟩
  intro p q hp hq hteq hd he
  unfold safeFilenameOfPath at he
  rw [if_pos hp, if_pos hq] at he
  have hdata := congrArg String.data he
  simp only [String.data_append] at hdata
  rw [hteq] at hdata
  exact hd (by simpa [List.append_assoc] using hdata)

set_option maxRecDepth 40000 in
set_option maxHeartbeats 1000000 in
/-- Witness for the amended C8: two concrete 102-character paths that agree
on the first 101 characters and have different digest heads. -/
theorem filename_derivation_amended_witness :
    (100 < (safeFilenameRaw (String.mk (List.replicate 101 'a' ++ ['b']))).length ∧
     100 < (safeFilenameRaw (String.mk (List.replicate 101 'a' ++ ['c']))).length ∧
     (safeFilenameRaw (String.mk (List.replicate 101 'a' ++ ['b']))).data.take 90 =
       (safeFilenameRaw (String.mk (List.replicate 101 'a' ++ ['c']))).data.take 90 ∧
     (md5Hex (safePathOf (String.mk (List.replicate 101 'a' ++ ['b'])))).data.take 10 ≠
       (md5Hex (safePathOf (String.mk (List.replicate 101 'a' ++ ['c'])))).data.take 10) ∧
    safeFilenameOfPath (String.mk (List.replicate 101 'a' ++ ['b'])) ≠
      safeFilenameOfPath (String.mk (List.replicate 101 'a' ++ ['c'])) :=
  ⟨⟨by decide, by decide, by decide, by decide⟩,
    filename_derivation_amended.2 (String.mk (List.replicate 101 'a' ++ ['b']))
      (String.mk (List.replicate 101 'a' ++ ['c']))
      (by decide) (by decide) (by decide) (by decide)⟩

/-! ## Claim C6: the title index across a run -/

/-- The reconcile block never touches the title index. -/
theorem reconcile_titles (now url out : String) (resp : Response) (c1 : Cache)
    (fs : FS) (tm1 : Option TitleMap) :
    (reconcile now url out resp c1 fs tm1).titles = tm1 := by
  cases h : contentChangedB c1 fs url out (calculate_md5 resp.body) <;>
    simp [reconcile, h]

/-- With duplicate checking off the title block returns no index. -/
theorem titlePhase_tm_none (gt : String → Option String) (url out : String)
    (cache : Cache) (b : String) :
    (titlePhase gt url out cache none b).2.1 = none := by
  cases hgt : gt b with
  | none => simp [titlePhase, hgt]
  | some t0 =>
    by_cases ht0 : t0 = ""
    · simp [titlePhase, hgt, ht0]
    · simp [titlePhase, hgt, ht0, dupHit]

/-- The title block either keeps the index or extends it at one title it did
not hold. -/
theorem titlePhase_tm_cases (gt : String → Option String) (url out : String)
    (cache : Cache) (tm : TitleMap) (b : String) :
    (titlePhase gt url out cache (some tm) b).2.1 = some tm ∨
    ∃ t0, gt b = some t0 ∧ t0 ≠ "" ∧ tm t0 = none ∧
      (titlePhase gt url out cache (some tm) b).2.1
        = some (updTitle tm t0 (pyBasename out)) := by
  cases hgt : gt b with
  | none => exact Or.inl (by simp [titlePhase, hgt])
  | some t0 =>
    by_cases ht0 : t0 = ""
    · exact Or.inl (by simp [titlePhase, hgt, ht0])
    · by_cases hd : dupHit (some tm) t0 = true
      · exact Or.inl (by simp [titlePhase, hgt, ht0, hd])
      · refine Or.inr ⟨t0, rfl, ht0, ?_, by simp [titlePhase, hgt, ht0, hd]⟩
        have h2 : (tm t0).isSome = false := by
          cases h : (tm t0).isSome
          · rfl
          · exact absurd (by simpa [dupHit] using h) hd
        exact Option.not_isSome_iff_eq_none.mp (by simp [h2])

/-- On a truthy title the title block leaves the index holding that title. -/
theorem titlePhase_registers (gt : String → Option String) (url out : String)
    (cache : Cache) (tm : TitleMap) (b t : String)
    (ht : gt b = some t) (hne : t ≠ "") :
    ∃ tm2, (titlePhase gt url out cache (some tm) b).2.1 = some tm2 ∧
      (tm2 t).isSome = true := by
  by_cases hd : dupHit (some tm) t = true
  · exact ⟨tm, by simp [titlePhase, ht, hne, hd], by simpa [dupHit] using hd⟩
  · exact ⟨updTitle tm t (pyBasename out), by simp [titlePhase, ht, hne, hd],
      by simp [updTitle]⟩

/-- A title already bound in the index makes the title block suppress the
page, recording only the title. -/
theorem titlePhase_suppresses (gt : String → Option String) (url out : String)
    (cache : Cache) (tm : TitleMap) (b t f : String)
    (ht : gt b = some t) (hne : t ≠ "") (hf : tm t = some f) :
    titlePhase gt url out cache (some tm) b =
      (updCache cache url { (cache url).getD {} with title := some t }, some tm, true) := by
  simp [titlePhase, ht, hne, dupHit, hf]

/-- The handler's resulting index is exactly the title block's. -/
theorem save_titles_eq (gt : String → Option String) (now url out : String)
    (cache : Cache) (fs : FS) (tm? : Option TitleMap) (resp : Response)
    (h304 : (resp.status == 304) = false) (h400 : ¬ (400 ≤ resp.status)) :
    (save_webpage_as_html gt now url out cache fs tm? (.ok resp)).titles =
      (titlePhase gt url out cache tm? resp.body).2.1 := by
  simp only [save_webpage_as_html, h304, Bool.false_eq_true, if_false, if_neg h400]
  by_cases hsup : (titlePhase gt url out cache tm? resp.body).2.2 = true
  · rw [if_pos hsup]
  · rw [if_neg hsup]
    exact reconcile_titles _ _ _ _ _ _ _

/-- With duplicate checking off (`title_mapping=None`) the handler returns no
index. -/
theorem save_titles_none (gt : String → Option String) (now url out : String)
    (cache : Cache) (fs : FS) (fetch : FetchResult) :
    (save_webpage_as_html gt now url out cache fs none fetch).titles = none := by
  cases fetch with
  | err => rfl
  | ok resp =>
    by_cases h3 : (resp.status == 304) = true
    · simp only [save_webpage_as_html, h3, if_true]
    · have h3f : (resp.status == 304) = false := by
        cases h : resp.status == 304
        · rfl
        · exact absurd h h3
      by_cases h4 : 400 ≤ resp.status
      · simp only [save_webpage_as_html, h3f, Bool.false_eq_true, if_false, if_pos h4]
      · rw [save_titles_eq gt now url out cache fs none resp h3f h4]
        exact titlePhase_tm_none gt url out cache resp.body

/-- An existing binding of the title index survives one handler call: the
index is only extended at titles it does not yet hold (line 157 runs only
when `check_title_exists` failed). -/
theorem save_titles_stable (gt : String → Option String) (now url out : String)
    (cache : Cache) (fs : FS) (tm : TitleMap) (fetch : FetchResult) (t f : String)
    (hf : tm t = some f) :
    ∃ tm2, (save_webpage_as_html gt now url out cache fs (some tm) fetch).titles = some tm2 ∧
      tm2 t = some f := by
  cases fetch with
  | err => exact ⟨tm, rfl, hf⟩
  | ok resp =>
    by_cases h3 : (resp.status == 304) = true
    · refine ⟨tm, ?_, hf⟩
      simp only [save_webpage_as_html, h3, if_true]
    · have h3f : (resp.status == 304) = false := by
        cases h : resp.status == 304
        · rfl
        · exact absurd h h3
      by_cases h4 : 400 ≤ resp.status
      · refine ⟨tm, ?_, hf⟩
        simp only [save_webpage_as_html, h3f, Bool.false_eq_true, if_false, if_pos h4]
      · rw [save_titles_eq gt now url out cache fs (some tm) resp h3f h4]
        cases titlePhase_tm_cases gt url out cache tm resp.body with
        | inl h => exact ⟨tm, h, hf⟩
        | inr h =>
          obtain ⟨t0, hgt, ht0, htm0, heq⟩ := h
          refine ⟨updTitle tm t0 (pyBasename out), heq, ?_⟩
          have htne : t ≠ t0 := by
            intro hc
            rw [hc, htm0] at hf
            cases hf
          unfold updTitle
          rw [if_neg htne]
          exact hf

/-- An existing title binding survives one loop iteration. -/
theorem stepLink_titles_stable (cfg : WalkCfg) (st : WalkState) (l : Option String)
    (t f : String) (hf : st.titles t = some f) :
    (stepLink cfg st l).titles t = some f := by
  cases l with
  | none => exact hf
  | some href =>
    simp only [stepLink]
    by_cases hs : pyStartsWith href "/" = true
    · rw [if_pos hs]
      by_cases hp : st.processed.contains (urljoinSlash cfg.base href) = true
      · rw [if_pos hp]
        exact hf
      · rw [if_neg hp]
        by_cases hi : cfg.ignores.any (fun p => p (urljoinSlash cfg.base href)) = true
        · rw [if_pos hi]
          exact hf
        · rw [if_neg hi]
          simp only
          cases hc : cfg.checkDup with
          | false =>
            rw [if_neg (by exact Bool.false_ne_true)]
            rw [save_titles_none]
            exact hf
          | true =>
            rw [if_pos rfl]
            obtain ⟨tm2, htm2, hft⟩ := save_titles_stable cfg.getTitle cfg.now
              (urljoinSlash cfg.base href)
              (cfg.outDir ++ "/" ++ safeFilenameOfPath (urlPath (urljoinSlash cfg.base href))
                ++ ".html")
              st.cache st.fs st.titles (cfg.fetchOf (urljoinSlash cfg.base href)) t f hf
            rw [htm2]
            exact hft
    · rw [if_neg hs]
      exact hf

/-- An existing title binding survives the rest of the walk. -/
theorem walkLinks_titles_stable (cfg : WalkCfg) (links : List (Option String))
    (st : WalkState) (t f : String) (hf : st.titles t = some f) :
    (walkLinks cfg links st).titles t = some f := by
  induction links generalizing st with
  | nil => exact hf
  | cons l ls ih => exact ih (stepLink cfg st l) (stepLink_titles_stable cfg st l t f hf)

/-- Reduction of one loop iteration that passes all filters. -/
theorem stepLink_run (cfg : WalkCfg) (st : WalkState) (href : String)
    (hs : pyStartsWith href "/" = true)
    (hp : st.processed.contains (urljoinSlash cfg.base href) = false)
    (hi : cfg.ignores.any (fun p => p (urljoinSlash cfg.base href)) = false) :
    stepLink cfg st (some href) =
      { processed := urljoinSlash cfg.base href :: st.processed
        cache := (save_webpage_as_html cfg.getTitle cfg.now (urljoinSlash cfg.base href)
          (cfg.outDir ++ "/" ++ safeFilenameOfPath (urlPath (urljoinSlash cfg.base href))
            ++ ".html") st.cache st.fs
          (if cfg.checkDup then some st.titles else none)
          (cfg.fetchOf (urljoinSlash cfg.base href))).cache
        fs := (save_webpage_as_html cfg.getTitle cfg.now (urljoinSlash cfg.base href)
          (cfg.outDir ++ "/" ++ safeFilenameOfPath (urlPath (urljoinSlash cfg.base href))
            ++ ".html") st.cache st.fs
          (if cfg.checkDup then some st.titles else none)
          (cfg.fetchOf (urljoinSlash cfg.base href))).fs
        titles := ((save_webpage_as_html cfg.getTitle cfg.now (urljoinSlash cfg.base href)
          (cfg.outDir ++ "/" ++ safeFilenameOfPath (urlPath (urljoinSlash cfg.base href))
            ++ ".html") st.cache st.fs
          (if cfg.checkDup then some st.titles else none)
          (cfg.fetchOf (urljoinSlash cfg.base href))).titles).getD st.titles
        fetched := st.fetched ++ [urljoinSlash cfg.base href] } := by
  simp only [stepLink]
  rw [if_pos hs, if_neg (by rw [hp]; exact Bool.false_ne_true),
    if_neg (by rw [hi]; exact Bool.false_ne_true)]

/-- After one loop iteration that fetched a page with truthy title `t`
successfully (duplicate checking on), the index holds `t`. -/
theorem stepLink_title_registered (cfg : WalkCfg) (st : WalkState) (href : String)
    (resp : Response) (t : String)
    (hdup : cfg.checkDup = true)
    (hs : pyStartsWith href "/" = true)
    (hp : st.processed.contains (urljoinSlash cfg.base href) = false)
    (hi : cfg.ignores.any (fun p => p (urljoinSlash cfg.base href)) = false)
    (hfetch : cfg.fetchOf (urljoinSlash cfg.base href) = .ok resp)
    (h304 : resp.status ≠ 304) (h400 : resp.status < 400)
    (ht : cfg.getTitle resp.body = some t) (hne : t ≠ "") :
    ∃ f2, (stepLink cfg st (some href)).titles t = some f2 := by
  rw [stepLink_run cfg st href hs hp hi]
  simp only [hdup, if_true, hfetch]
  have h3f : (resp.status == 304) = false := by
    simp only [beq_eq_false_iff_ne, ne_eq]
    exact h304
  have h4 : ¬ (400 ≤ resp.status) := by omega
  rw [save_titles_eq _ _ _ _ _ _ _ _ h3f h4]
  obtain ⟨tm2, heq, hsome⟩ := titlePhase_registers cfg.getTitle (urljoinSlash cfg.base href)
    (cfg.outDir ++ "/" ++ safeFilenameOfPath (urlPath (urljoinSlash cfg.base href)) ++ ".html")
    st.cache st.titles resp.body t ht hne
  rw [heq]
  exact Option.isSome_iff_exists.mp hsome

/-- A loop iteration whose page's truthy title is already bound in the index
(duplicate checking on) writes nothing and records only the title. -/
theorem stepLink_title_suppressed (cfg : WalkCfg) (st : WalkState) (href : String)
    (resp : Response) (t f : String)
    (hdup : cfg.checkDup = true)
    (hs : pyStartsWith href "/" = true)
    (hp : st.processed.contains (urljoinSlash cfg.base href) = false)
    (hi : cfg.ignores.any (fun p => p (urljoinSlash cfg.base href)) = false)
    (hfetch : cfg.fetchOf (urljoinSlash cfg.base href) = .ok resp)
    (h304 : resp.status ≠ 304) (h400 : resp.status < 400)
    (ht : cfg.getTitle resp.body = some t) (hne : t ≠ "")
    (hf : st.titles t = some f) :
    (stepLink cfg st (some href)).fs = st.fs ∧
    (stepLink cfg st (some href)).titles = st.titles ∧
    (stepLink cfg st (some href)).cache (urljoinSlash cfg.base href) =
      some { (st.cache (urljoinSlash cfg.base href)).getD {} with title := some t } := by
  rw [stepLink_run cfg st href hs hp hi]
  simp only [hdup, if_true, hfetch]
  have h3f : (resp.status == 304) = false := by
    simp only [beq_eq_false_iff_ne, ne_eq]
    exact h304
  have h4 : ¬ (400 ≤ resp.status) := by omega
  have htp := titlePhase_suppresses cfg.getTitle (urljoinSlash cfg.base href)
    (cfg.outDir ++ "/" ++ safeFilenameOfPath (urlPath (urljoinSlash cfg.base href)) ++ ".html")
    st.cache st.titles resp.body t f ht hne hf
  simp only [save_webpage_as_html, h3f, Bool.false_eq_true, if_false, if_neg h4, htp]
  exact ⟨rfl, rfl, updCache_self _ _ _⟩

/-- C6: with duplicate checking on, (i) a title-to-filename binding, once
made, survives the rest of the walk (each title owns at most one filename,
first writer wins); (ii) an accepted page's title is registered in the index
by the title block itself, before and independently of the digest/write
decision; (iii) when two distinct URLs in link order fetch pages with the
same truthy title, the later one's iteration writes no file and only records
the title in its cache record. -/
theorem title_index_first_writer_wins :
    (∀ (cfg : WalkCfg) (links : List (Option String)) (st : WalkState) (t f : String),
      st.titles t = some f → (walkLinks cfg links st).titles t = some f) ∧
    (∀ (gt : String → Option String) (now url out : String) (cache : Cache) (fs : FS)
        (tm : TitleMap) (resp : Response) (t : String),
      resp.status ≠ 304 → resp.status < 400 →
      gt resp.body = some t → t ≠ "" → tm t = none →
      (save_webpage_as_html gt now url out cache fs (some tm) (.ok resp)).titles =
        some (updTitle tm t (pyBasename out))) ∧
    (∀ (cfg : WalkCfg) (l1 l2 : List (Option String)) (st0 : WalkState)
        (h1 h2 : String) (resp1 resp2 : Response) (t : String),
      cfg.checkDup = true →
      pyStartsWith h1 "/" = true →
      (walkLinks cfg l1 st0).processed.contains (urljoinSlash cfg.base h1) = false →
      cfg.ignores.any (fun p => p (urljoinSlash cfg.base h1)) = false →
      cfg.fetchOf (urljoinSlash cfg.base h1) = .ok resp1 →
      resp1.status ≠ 304 → resp1.status < 400 →
      cfg.getTitle resp1.body = some t → t ≠ "" →
      pyStartsWith h2 "/" = true →
      (walkLinks cfg (l1 ++ some h1 :: l2) st0).processed.contains
        (urljoinSlash cfg.base h2) = false →
      cfg.ignores.any (fun p => p (urljoinSlash cfg.base h2)) = false →
      cfg.fetchOf (urljoinSlash cfg.base h2) = .ok resp2 →
      resp2.status ≠ 304 → resp2.status < 400 →
      cfg.getTitle resp2.body = some t →
      (stepLink cfg (walkLinks cfg (l1 ++ some h1 :: l2) st0) (some h2)).fs =
        (walkLinks cfg (l1 ++ some h1 :: l2) st0).fs ∧
      (stepLink cfg (walkLinks cfg (l1 ++ some h1 :: l2) st0) (some h2)).cache
          (urljoinSlash cfg.base h2) =
        some { ((walkLinks cfg (l1 ++ some h1 :: l2) st0).cache
          (urljoinSlash cfg.base h2)).getD {} with title := some t }) := by
  refine ⟨walkLinks_titles_stable, ?_, ?_⟩
  · intro gt now url out cache fs tm resp t h304 h400 ht hne htm
    have hb : (resp.status == 304) = false := by
      simp only [beq_eq_false_iff_ne, ne_eq]
      exact h304
    have h4 : ¬ (400 ≤ resp.status) := by omega
    rw [save_titles_eq gt now url out cache fs (some tm) resp hb h4]
    simp [titlePhase, ht, hne, dupHit, htm]
  · intro cfg l1 l2 st0 h1 h2 resp1 resp2 t hdup hs1 hp1 hi1 hf1 h3041 h4001 ht1 hne
      hs2 hp2 hi2 hf2 h3042 h4002 ht2
    have hsplit : walkLinks cfg (l1 ++ some h1 :: l2) st0 =
        walkLinks cfg l2 (stepLink cfg (walkLinks cfg l1 st0) (some h1)) := by
      unfold walkLinks
      rw [List.foldl_append, List.foldl_cons]
    have hreg := stepLink_title_registered cfg (walkLinks cfg l1 st0) h1 resp1 t
      hdup hs1 hp1 hi1 hf1 h3041 h4001 ht1 hne
    obtain ⟨f0, hf0⟩ := hreg
    have hstable : (walkLinks cfg (l1 ++ some h1 :: l2) st0).titles t = some f0 := by
      rw [hsplit]
      exact walkLinks_titles_stable cfg l2 _ t f0 hf0
    obtain ⟨c1, c2, c3⟩ := stepLink_title_suppressed cfg
      (walkLinks cfg (l1 ++ some h1 :: l2) st0) h2 resp2 t f0
      hdup hs2 hp2 hi2 hf2 h3042 h4002 ht2 hne hstable
    exact ⟨c1, c3⟩

/-- Concrete configuration for the C6 witness: duplicate checking on, every
fetch succeeds with the same body, every page titles `T`. -/
def c6cfg : WalkCfg :=
  { base := "http://h", outDir := "o", ignores := [], checkDup := true,
    getTitle := fun _ => some "T", fetchOf := fun _ => .ok { status := 200, body := "B" },
    now := "t0" }

/-- Empty starting state for the C6 witness. -/
def c6st0 : WalkState :=
  { processed := [], cache := fun _ => none, fs := fun _ => none,
    titles := fun _ => none, fetched := [] }

set_option maxRecDepth 40000 in
set_option maxHeartbeats 1000000 in
/-- Witness for C6: links `/a` then `/b`, same title on both pages; the
`/b` iteration writes nothing and records only the title. -/
theorem title_index_first_writer_wins_witness :
    (c6cfg.checkDup = true ∧
     pyStartsWith "/a" "/" = true ∧
     (walkLinks c6cfg [] c6st0).processed.contains (urljoinSlash c6cfg.base "/a") = false ∧
     c6cfg.ignores.any (fun p => p (urljoinSlash c6cfg.base "/a")) = false ∧
     c6cfg.fetchOf (urljoinSlash c6cfg.base "/a") =
       .ok { status := 200, body := "B" } ∧
     ({ status := 200, body := "B" } : Response).status ≠ 304 ∧
     ({ status := 200, body := "B" } : Response).status < 400 ∧
     c6cfg.getTitle (({ status := 200, body := "B" } : Response)).body = some "T" ∧
     ("T" : String) ≠ "" ∧
     pyStartsWith "/b" "/" = true ∧
     (walkLinks c6cfg ([] ++ some "/a" :: []) c6st0).processed.contains
       (urljoinSlash c6cfg.base "/b") = false ∧
     c6cfg.ignores.any (fun p => p (urljoinSlash c6cfg.base "/b")) = false ∧
     c6cfg.fetchOf (urljoinSlash c6cfg.base "/b") =
       .ok { status := 200, body := "B" }) ∧
    ((stepLink c6cfg (walkLinks c6cfg ([] ++ some "/a" :: []) c6st0) (some "/b")).fs =
       (walkLinks c6cfg ([] ++ some "/a" :: []) c6st0).fs ∧
     (stepLink c6cfg (walkLinks c6cfg ([] ++ some "/a" :: []) c6st0) (some "/b")).cache
         (urljoinSlash c6cfg.base "/b") =
       some { ((walkLinks c6cfg ([] ++ some "/a" :: []) c6st0).cache
         (urljoinSlash c6cfg.base "/b")).getD {} with title := some "T" }) :=
  ⟨⟨rfl, by decide, by decide, rfl, rfl, by decide, by decide, rfl, by decide,
     by decide, by decide, rfl, rfl⟩,
    title_index_first_writer_wins.2.2 c6cfg [] [] c6st0 "/a" "/b"
      { status := 200, body := "B" } { status := 200, body := "B" } "T"
      rfl (by decide) (by decide) rfl rfl (by decide) (by decide) rfl (by decide)
      (by decide) (by decide) rfl rfl (by decide) (by decide) rfl⟩

/-! ## Claim C10: idempotence of the normalizer -/

/-- Counterexample to C10: the query-stripping substitution of line 58 keeps
everything up to the last `?` of the URL, so a URL with two `?` loses only
the last query on the first pass and more on the second. -/
theorem normalizer_not_idempotent_cex :
    clean_html_for_comparison (clean_html_for_comparison "http://a?x?y") ≠
      clean_html_for_comparison "http://a?x?y" := by
  decide

/-- dropWhile never lengthens a list. -/
theorem dropWhile_length_le (p : Char → Bool) (l : List Char) :
    (l.dropWhile p).length ≤ l.length := by
  induction l with
  | nil => simp
  | cons a r ih =>
    rw [List.dropWhile_cons]
    split
    · exact Nat.le_succ_of_le ih
    · exact Nat.le_refl _

/-- dropWhile is dropping the takeWhile length. -/
theorem dropWhile_eq_drop_takeWhile (p : Char → Bool) (l : List Char) :
    l.dropWhile p = l.drop (l.takeWhile p).length := by
  induction l with
  | nil => rfl
  | cons a r ih =>
    by_cases h : p a = true
    · rw [List.dropWhile_cons, if_pos h, List.takeWhile_cons, if_pos h]
      simpa using ih
    · rw [List.dropWhile_cons, if_neg (by simp [h]), List.takeWhile_cons,
        if_neg (by simp [h])]
      rfl

/-- The head surviving a dropWhile fails the predicate. -/
theorem head?_dropWhile_not (p : Char → Bool) (l : List Char) (c : Char)
    (hc : (l.dropWhile p).head? = some c) : p c = false := by
  induction l with
  | nil => cases hc
  | cons a r ih =>
    rw [List.dropWhile_cons] at hc
    by_cases h : p a = true
    · rw [if_pos h] at hc
      exact ih hc
    · rw [if_neg (by simp [h])] at hc
      have hac : a = c := by simpa using hc
      rw [← hac]
      cases hb : p a with
      | false => rfl
      | true => exact absurd hb h

/-- One step of the whitespace collapse on a whitespace head: emit one space
and resume after the run. -/
theorem substP_ws_cons_pos (prev : Option Char) (a : Char) (rest : List Char)
    (ha : isSpc a = true) :
    substP tryWs prev (a :: rest) =
      ' ' :: substP tryWs (some ((a :: rest).getD ((rest.takeWhile isSpc).length) a))
        (rest.dropWhile isSpc) := by
  have ht : tryWs prev (a :: rest) = some ([' '], ((a :: rest).takeWhile isSpc).length) := by
    simp [tryWs, ha]
  rw [substP_cons_some _ _ _ _ _ _ ht]
  have htk : ((a :: rest).takeWhile isSpc).length = (rest.takeWhile isSpc).length + 1 := by
    rw [List.takeWhile_cons, if_pos ha]
    rfl
  rw [htk]
  simp only [Nat.add_sub_cancel, List.singleton_append]
  rw [← dropWhile_eq_drop_takeWhile]

/-- One step of the whitespace collapse on a non-whitespace head. -/
theorem substP_ws_cons_neg (prev : Option Char) (a : Char) (rest : List Char)
    (ha : isSpc a = false) :
    substP tryWs prev (a :: rest) = a :: substP tryWs (some a) rest := by
  have ht : tryWs prev (a :: rest) = none := by
    simp [tryWs, ha]
  rw [substP_cons_none _ _ _ _ ht]

/-- Every whitespace character the collapse emits is a plain space. -/
theorem substP_ws_spaces :
    ∀ (n : Nat) (l : List Char), l.length ≤ n → ∀ (prev : Option Char) (c : Char),
      c ∈ substP tryWs prev l → isSpc c = true → c = ' ' := by
  intro n
  induction n with
  | zero =>
    intro l h prev c hc _
    cases l with
    | nil => cases hc
    | cons a r => simp at h
  | succ n ih =>
    intro l h prev c hc hspc
    cases l with
    | nil => cases hc
    | cons a r =>
      by_cases ha : isSpc a = true
      · rw [substP_ws_cons_pos _ _ _ ha] at hc
        rcases List.mem_cons.mp hc with h1 | h1
        · exact h1
        · have hlen : (r.dropWhile isSpc).length ≤ n := by
            have h1l := dropWhile_length_le isSpc r
            simp only [List.length_cons] at h
            omega
          exact ih _ hlen _ c h1 hspc
      · have ha2 : isSpc a = false := by
          cases hb : isSpc a
          · rfl
          · exact absurd hb ha
        rw [substP_ws_cons_neg _ _ _ ha2] at hc
        rcases List.mem_cons.mp hc with h1 | h1
        · rw [h1] at hspc
          rw [hspc] at ha2
          cases ha2
        · have hlen : r.length ≤ n := by
            simp only [List.length_cons] at h
            omega
          exact ih _ hlen _ c h1 hspc

/-- Adjacency relation of a collapsed text: no two neighbouring whitespace
characters. -/
def wsRel (a b : Char) : Prop := ¬ (isSpc a = true ∧ isSpc b = true)

/-- The collapse keeps the head of a text whose head is not whitespace. -/
theorem substP_ws_head_eq (y : List Char) (prev : Option Char)
    (hy : ∀ c, y.head? = some c → isSpc c = false) :
    (substP tryWs prev y).head? = y.head? := by
  cases y with
  | nil => rfl
  | cons b t =>
    rw [substP_ws_cons_neg _ _ _ (hy b rfl)]
    rfl

/-- The collapse output has no two adjacent whitespace characters. -/
theorem substP_ws_chain :
    ∀ (n : Nat) (l : List Char), l.length ≤ n → ∀ (prev : Option Char),
      (substP tryWs prev l).Chain' wsRel := by
  intro n
  induction n with
  | zero =>
    intro l h prev
    cases l with
    | nil => exact List.chain'_nil
    | cons a r => simp at h
  | succ n ih =>
    intro l h prev
    cases l with
    | nil => exact List.chain'_nil
    | cons a r =>
      simp only [List.length_cons] at h
      by_cases ha : isSpc a = true
      · rw [substP_ws_cons_pos _ _ _ ha]
        refine List.chain'_cons'.mpr ⟨?_, ?_⟩
        · intro y hy
          have hhead : (substP tryWs (some ((a :: r).getD ((r.takeWhile isSpc).length) a))
              (r.dropWhile isSpc)).head? = (r.dropWhile isSpc).head? :=
            substP_ws_head_eq _ _ (head?_dropWhile_not isSpc r)
          rw [hhead] at hy
          have := head?_dropWhile_not isSpc r y hy
          intro hcontra
          rw [this] at hcontra
          cases hcontra.2
        · have hlen : (r.dropWhile isSpc).length ≤ n := by
            have := dropWhile_length_le isSpc r
            omega
          exact ih _ hlen _
      · have ha2 : isSpc a = false := by
          cases hb : isSpc a
          · rfl
          · exact absurd hb ha
        rw [substP_ws_cons_neg _ _ _ ha2]
        refine List.chain'_cons'.mpr ⟨?_, ih _ (by omega) _⟩
        intro y _
        intro hcontra
        rw [ha2] at hcontra
        cases hcontra.1

/-- A text that is already collapsed — every whitespace a single space with
non-whitespace neighbours — is a fixed point of the collapse. -/
theorem substP_ws_fixed :
    ∀ (l : List Char), (∀ c ∈ l, isSpc c = true → c = ' ') → l.Chain' wsRel →
      ∀ (prev : Option Char), substP tryWs prev l = l := by
  intro l
  induction l with
  | nil => intro _ _ _; rfl
  | cons a r ih =>
    intro hall hchain prev
    by_cases ha : isSpc a = true
    · rw [substP_ws_cons_pos _ _ _ ha]
      have haa : a = ' ' := hall a (List.mem_cons_self _ _) ha
      have hr : r.dropWhile isSpc = r := by
        cases r with
        | nil => rfl
        | cons b t =>
          have hrel : wsRel a b := (List.chain'_cons.mp hchain).1
          have hb : isSpc b = false := by
            cases hbv : isSpc b
            · rfl
            · exact absurd ⟨ha, hbv⟩ hrel
          rw [List.dropWhile_cons, if_neg (by simp [hb])]
      rw [hr, ← haa]
      congr 1
      exact ih (fun c hc hs => hall c (List.mem_cons_of_mem _ hc) hs)
        (List.chain'_cons'.mp hchain).2 _
    · have ha2 : isSpc a = false := by
        cases hb : isSpc a
        · rfl
        · exact absurd hb ha
      rw [substP_ws_cons_neg _ _ _ ha2]
      congr 1
      exact ih (fun c hc hs => hall c (List.mem_cons_of_mem _ hc) hs)
        (List.chain'_cons'.mp hchain).2 _

/-- The strip of line 79 in terms of Mathlib's right-drop. -/
theorem pyStrip_eq_rdrop (l : List Char) :
    pyStrip l = List.rdropWhile isSpc (l.dropWhile isSpc) := rfl

/-- The head surviving a strip fails the whitespace test. -/
theorem head?_pyStrip_not (l : List Char) (c : Char)
    (hc : (pyStrip l).head? = some c) : isSpc c = false := by
  have hpre : pyStrip l <+: l.dropWhile isSpc := by
    rw [pyStrip_eq_rdrop]
    exact List.rdropWhile_prefix _ _
  obtain ⟨t, ht⟩ := hpre
  have hh : (l.dropWhile isSpc).head? = some c := by
    rw [← ht]
    cases hps : pyStrip l with
    | nil => rw [hps] at hc; cases hc
    | cons b u =>
      rw [hps] at hc
      cases hc
      rfl
  exact head?_dropWhile_not isSpc l c hh

/-- dropWhile is the identity on a list whose head fails the predicate. -/
theorem dropWhile_eq_self_of_head (p : Char → Bool) (l : List Char)
    (h : ∀ c, l.head? = some c → p c = false) : l.dropWhile p = l := by
  cases l with
  | nil => rfl
  | cons a r =>
    rw [List.dropWhile_cons, if_neg (by simp [h a rfl])]

/-- Stripping is idempotent. -/
theorem pyStrip_idem (l : List Char) : pyStrip (pyStrip l) = pyStrip l := by
  rw [pyStrip_eq_rdrop (pyStrip l)]
  rw [dropWhile_eq_self_of_head isSpc (pyStrip l) (head?_pyStrip_not l)]
  rw [pyStrip_eq_rdrop l]
  exact List.rdropWhile_idempotent _ _

/-- The strip keeps only characters of its input. -/
theorem mem_pyStrip (l : List Char) (c : Char) (hc : c ∈ pyStrip l) : c ∈ l := by
  have h1 : pyStrip l <+: l.dropWhile isSpc := by
    rw [pyStrip_eq_rdrop]
    exact List.rdropWhile_prefix _ _
  have h2 : l.dropWhile isSpc <:+ l := List.dropWhile_suffix isSpc
  exact h2.sublist.mem (h1.sublist.mem hc)

/-- The strip of a collapsed text is still collapsed. -/
theorem chain'_pyStrip (l : List Char) (h : l.Chain' wsRel) :
    (pyStrip l).Chain' wsRel := by
  have h1 : pyStrip l <+: l.dropWhile isSpc := by
    rw [pyStrip_eq_rdrop]
    exact List.rdropWhile_prefix _ _
  have h2 : l.dropWhile isSpc <:+ l := List.dropWhile_suffix isSpc
  exact h.infix (h1.isInfix.trans h2.isInfix)

/-- Amended C10: the normalizer as a whole is not idempotent (see the
counterexample), but its final stage — the whitespace collapse of line 76
followed by the strip of line 79 — is: applying `wsFinalStage` twice equals
applying it once. -/
theorem ws_final_stage_idempotent (l : List Char) :
    wsFinalStage (wsFinalStage l) = wsFinalStage l := by
  unfold wsFinalStage
  have hfix : substP tryWs none (pyStrip (substP tryWs none l)) =
      pyStrip (substP tryWs none l) := by
    refine substP_ws_fixed _ ?_ ?_ none
    · intro c hc hs
      exact substP_ws_spaces (l.length) l (Nat.le_refl _) none c (mem_pyStrip _ c hc) hs
    · exact chain'_pyStrip _ (substP_ws_chain l.length l (Nat.le_refl _) none)
  rw [hfix]
  exact pyStrip_idem _

/-! ## Claim C4: normalization equivalence -/

/-- Counterexample to C4 as stated: two texts that differ only in the length
of one whitespace run normalize differently — the timestamp rule of line 50
allows at most one whitespace between date and time, and the whitespace
collapse runs only after it, so the double-spaced text keeps its date-time
while the single-spaced one loses it. -/
theorem normalization_equivalence_cex :
    String.mk ("2024-01-01".data ++ [' '] ++ "12:00:00".data) = "2024-01-01 12:00:00" ∧
    String.mk ("2024-01-01".data ++ [' ', ' '] ++ "12:00:00".data) = "2024-01-01  12:00:00" ∧
    clean_html_for_comparison "2024-01-01 12:00:00" ≠
      clean_html_for_comparison "2024-01-01  12:00:00" :=
  ⟨rfl, rfl, by decide⟩

/-- A suffix of an append splits: a suffix of the tail, or a nonempty suffix
of the head glued to the whole tail. -/
theorem suffix_append_cases {α : Type} {t a b : List α} (h : t.IsSuffix (a ++ b)) :
    t.IsSuffix b ∨ ∃ t1, t1 ≠ [] ∧ t1.IsSuffix a ∧ t = t1 ++ b := by
  obtain ⟨u, hu⟩ := h
  rcases List.append_eq_append_iff.mp hu with ⟨a2, ha2, ht⟩ | ⟨c2, _, hd⟩
  · by_cases he : a2 = []
    · subst he
      rw [List.nil_append] at ht
      exact Or.inl (by rw [ht])
    · exact Or.inr ⟨a2, he, ⟨u, ha2.symm⟩, ht⟩
  · exact Or.inl ⟨c2, hd.symm⟩

/-- The head of a nonempty suffix belongs to the list. -/
theorem head_mem_of_suffix {α : Type} {a : α} {t l : List α} (h : (a :: t).IsSuffix l) :
    a ∈ l :=
  h.sublist.mem (List.mem_cons_self a t)

/-- The script scanner fails wherever the text does not start `<s`. -/
theorem tryScript_none_of_shape (prev : Option Char) (t : List Char)
    (h : t = [] ∨ (∃ b t2, t = b :: t2 ∧ b ≠ '<') ∨ (∃ t2, t = '<' :: '!' :: t2)) :
    tryScript prev t = none := by
  rcases h with rfl | ⟨b, t2, rfl, hb⟩ | ⟨t2, rfl⟩
  · rfl
  · have hpre : ("<script".data.isPrefixOf (b :: t2)) = false := by
      show (('<' == b) && ("script".data.isPrefixOf t2)) = false
      rw [beq_eq_false_iff_ne.mpr (fun hh => hb hh.symm)]
      exact Bool.false_and _
    unfold tryScript
    rw [if_neg (by simp [hpre])]
  · have hpre : ("<script".data.isPrefixOf ('<' :: '!' :: t2)) = false := by
      show (('<' == '<') && (('s' == '!') && ("cript".data.isPrefixOf t2))) = false
      simp
    unfold tryScript
    rw [if_neg (by simp [hpre])]

/-- The style scanner fails wherever the text does not start `<s`. -/
theorem tryStyleTag_none_of_shape (prev : Option Char) (t : List Char)
    (h : t = [] ∨ (∃ b t2, t = b :: t2 ∧ b ≠ '<') ∨ (∃ t2, t = '<' :: '!' :: t2)) :
    tryStyleTag prev t = none := by
  rcases h with rfl | ⟨b, t2, rfl, hb⟩ | ⟨t2, rfl⟩
  · rfl
  · have hpre : ("<style".data.isPrefixOf (b :: t2)) = false := by
      show (('<' == b) && ("style".data.isPrefixOf t2)) = false
      rw [beq_eq_false_iff_ne.mpr (fun hh => hb hh.symm)]
      exact Bool.false_and _
    unfold tryStyleTag
    rw [if_neg (by simp [hpre])]
  · have hpre : ("<style".data.isPrefixOf ('<' :: '!' :: t2)) = false := by
      show (('<' == '<') && (('s' == '!') && ("tyle".data.isPrefixOf t2))) = false
      simp
    unfold tryStyleTag
    rw [if_neg (by simp [hpre])]

/-- The comment scanner fails on the empty text and on a head other than `<`. -/
theorem tryComment_none_of_head (prev : Option Char) (b : Char) (t2 : List Char)
    (hb : b ≠ '<') : tryComment prev (b :: t2) = none := by
  have hpre : ("<!--".data.isPrefixOf (b :: t2)) = false := by
    show (('<' == b) && ("!--".data.isPrefixOf t2)) = false
    rw [beq_eq_false_iff_ne.mpr (fun hh => hb hh.symm)]
    exact Bool.false_and _
  unfold tryComment
  rw [if_neg (by simp [hpre])]

/-- Heads of suffixes of a one-comment text whose pieces hold no `<`: empty,
a non-`<` head, or the comment opener itself. -/
theorem commentShape_suffix_heads {X C Y t : List Char}
    (hX : ∀ ch ∈ X, ch ≠ '<') (hC : ∀ ch ∈ C, ch ≠ '<') (hY : ∀ ch ∈ Y, ch ≠ '<')
    (h : t.IsSuffix (X ++ '<' :: '!' :: '-' :: '-' :: (C ++ '-' :: '-' :: '>' :: Y))) :
    t = [] ∨ (∃ b t2, t = b :: t2 ∧ b ≠ '<') ∨ (∃ t2, t = '<' :: '!' :: t2) := by
  rcases suffix_append_cases h with h1 | ⟨t1, hne, ht1, rfl⟩
  · rcases List.suffix_cons_iff.mp h1 with rfl | h2
    · exact Or.inr (Or.inr ⟨_, rfl⟩)
    rcases List.suffix_cons_iff.mp h2 with rfl | h3
    · exact Or.inr (Or.inl ⟨'!', _, rfl, by decide⟩)
    rcases List.suffix_cons_iff.mp h3 with rfl | h4
    · exact Or.inr (Or.inl ⟨'-', _, rfl, by decide⟩)
    rcases List.suffix_cons_iff.mp h4 with rfl | h5
    · exact Or.inr (Or.inl ⟨'-', _, rfl, by decide⟩)
    rcases suffix_append_cases h5 with h6 | ⟨t1, hne, ht1, rfl⟩
    · rcases List.suffix_cons_iff.mp h6 with rfl | h7
      · exact Or.inr (Or.inl ⟨'-', _, rfl, by decide⟩)
      rcases List.suffix_cons_iff.mp h7 with rfl | h8
      · exact Or.inr (Or.inl ⟨'-', _, rfl, by decide⟩)
      rcases List.suffix_cons_iff.mp h8 with rfl | h9
      · exact Or.inr (Or.inl ⟨'>', _, rfl, by decide⟩)
      cases t with
      | nil => exact Or.inl rfl
      | cons b t2 => exact Or.inr (Or.inl ⟨b, t2, rfl, hY b (head_mem_of_suffix h9)⟩)
    · cases t1 with
      | nil => exact absurd rfl hne
      | cons b t1b =>
        exact Or.inr (Or.inl ⟨b, t1b ++ ('-' :: '-' :: '>' :: Y), List.cons_append _ _ _,
          hC b (head_mem_of_suffix ht1)⟩)
  · cases t1 with
    | nil => exact absurd rfl hne
    | cons b t1b =>
      exact Or.inr (Or.inl ⟨b, t1b ++ _, List.cons_append _ _ _,
        hX b (head_mem_of_suffix ht1)⟩)

/-- A pass whose scanner fails at every position is the identity. -/
theorem substP_eq_self (tr : Option Char → List Char → Option (List Char × Nat))
    (s : List Char) (h : ∀ (prev : Option Char) (t : List Char), t.IsSuffix s → tr prev t = none) :
    ∀ prev, substP tr prev s = s := by
  induction s with
  | nil => intro _; rfl
  | cons a r ih =>
    intro prev
    rw [substP_cons_none _ _ _ _ (h prev (a :: r) (List.suffix_refl _))]
    rw [ih (fun prev2 t ht => h prev2 t (ht.trans (List.suffix_cons a r)))]

/-- A pass runs untouched through a first segment at whose positions the
scanner fails. -/
theorem substP_append_none (tr : Option Char → List Char → Option (List Char × Nat))
    (s1 s2 : List Char)
    (h : ∀ (prev : Option Char) (t : List Char), t.IsSuffix s1 → t ≠ [] →
      tr prev (t ++ s2) = none) :
    ∀ prev, ∃ prev2, substP tr prev (s1 ++ s2) = s1 ++ substP tr prev2 s2 := by
  induction s1 with
  | nil => intro prev; exact ⟨prev, rfl⟩
  | cons a r ih =>
    intro prev
    have h0 : tr prev (a :: (r ++ s2)) = none := by
      have := h prev (a :: r) (List.suffix_refl _) (by simp)
      rwa [List.cons_append] at this
    rw [List.cons_append, substP_cons_none _ _ _ _ h0]
    obtain ⟨p2, hp2⟩ := ih (fun pr t ht hne => h pr t (ht.trans (List.suffix_cons a r)) hne)
      (some a)
    exact ⟨p2, by rw [hp2, List.cons_append]⟩

/-- Leftmost occurrence of the comment closer after a dash-free body. -/
theorem findSub_comment_close :
    ∀ (C : List Char), (∀ ch ∈ C, ch ≠ '-') → ∀ (Y2 : List Char),
      findSub ['-', '-', '>'] (C ++ '-' :: '-' :: '>' :: Y2) = some C.length := by
  intro C
  induction C with
  | nil =>
    intro _ Y2
    show findSub _ ('-' :: '-' :: '>' :: Y2) = some 0
    unfold findSub
    rw [if_pos (by simp [List.isPrefixOf])]
  | cons a C2 ih =>
    intro hC Y2
    show findSub _ (a :: (C2 ++ '-' :: '-' :: '>' :: Y2)) = some (C2.length + 1)
    unfold findSub
    have hpre : (['-', '-', '>'].isPrefixOf (a :: (C2 ++ '-' :: '-' :: '>' :: Y2))) = false := by
      show (('-' == a) && _) = false
      rw [beq_eq_false_iff_ne.mpr (fun hh => hC a (List.mem_cons_self _ _) hh.symm)]
      exact Bool.false_and _
    rw [if_neg (by simp [hpre])]
    rw [ih (fun ch hch => hC ch (List.mem_cons_of_mem _ hch)) Y2]
    rfl

/-- The comment scanner fires on the comment opener and consumes through the
first closer. -/
theorem tryComment_fires (prev : Option Char) (C rest2 : List Char)
    (hC : ∀ ch ∈ C, ch ≠ '-') :
    tryComment prev ('<' :: '!' :: '-' :: '-' :: (C ++ '-' :: '-' :: '>' :: rest2)) =
      some ([], 4 + C.length + 3) := by
  unfold tryComment
  rw [if_pos (by simp [List.isPrefixOf])]
  have he : "-->".data = ['-', '-', '>'] := rfl
  have hdrop : ('<' :: '!' :: '-' :: '-' :: (C ++ '-' :: '-' :: '>' :: rest2)).drop 4 =
      C ++ '-' :: '-' :: '>' :: rest2 := rfl
  rw [he, hdrop, findSub_comment_close C hC rest2]

/-- The comment pass erases exactly the comment from a one-comment text. -/
theorem substP_comment_removes (X C Y : List Char)
    (hX : ∀ ch ∈ X, ch ≠ '<') (hCm : ∀ ch ∈ C, ch ≠ '-') (hCl : ∀ ch ∈ C, ch ≠ '<')
    (hY : ∀ ch ∈ Y, ch ≠ '<') (prev : Option Char) :
    substP tryComment prev (X ++ '<' :: '!' :: '-' :: '-' :: (C ++ '-' :: '-' :: '>' :: Y)) =
      X ++ Y := by
  obtain ⟨p2, hp2⟩ := substP_append_none tryComment X
    ('<' :: '!' :: '-' :: '-' :: (C ++ '-' :: '-' :: '>' :: Y))
    (by
      intro pr t ht hne
      cases t with
      | nil => exact absurd rfl hne
      | cons b tb =>
        rw [List.cons_append]
        exact tryComment_none_of_head pr b _ (hX b (head_mem_of_suffix ht)))
    prev
  rw [hp2]
  have hinner : substP tryComment p2
      ('<' :: '!' :: '-' :: '-' :: (C ++ '-' :: '-' :: '>' :: Y)) = Y := by
    rw [substP_cons_some _ _ _ _ _ _ (tryComment_fires p2 C Y hCm)]
    have hdrop : ('!' :: '-' :: '-' :: (C ++ '-' :: '-' :: '>' :: Y)).drop
        (4 + C.length + 3 - 1) = Y := by
      have h1 : 4 + C.length + 3 - 1 = (C.length + 3) + 1 + 1 + 1 := by omega
      rw [h1]
      simp only [List.drop_succ_cons]
      have h2 : C ++ '-' :: '-' :: '>' :: Y = (C ++ ['-', '-', '>']) ++ Y := by simp
      have h3 : C.length + 3 = (C ++ ['-', '-', '>']).length := by simp
      rw [h2, h3, List.drop_left]
    rw [hdrop]
    rw [substP_eq_self tryComment Y (by
      intro pr t ht
      cases t with
      | nil => rfl
      | cons b tb => exact tryComment_none_of_head pr b tb (hY b (head_mem_of_suffix ht)))]
    rfl
  rw [hinner]

/-- Amended C4: the normalizer is a function, hence deterministic, and for
documents that differ only in the body of one HTML comment — the bodies free
of `<` and `-`, the surroundings free of `<` after lowercasing — the
normalized forms agree.  The unrestricted equivalence of the claim fails
(see the whitespace-run counterexample). -/
theorem normalize_comment_invariance (x c c2 y : List Char)
    (hx : ∀ ch ∈ x, pyLower ch ≠ '<')
    (hy : ∀ ch ∈ y, pyLower ch ≠ '<')
    (hc : ∀ ch ∈ c, pyLower ch ≠ '<' ∧ pyLower ch ≠ '-')
    (hc2 : ∀ ch ∈ c2, pyLower ch ≠ '<' ∧ pyLower ch ≠ '-') :
    clean_html_for_comparison (String.mk (x ++ "<!--".data ++ c ++ "-->".data ++ y)) =
      clean_html_for_comparison (String.mk (x ++ "<!--".data ++ c2 ++ "-->".data ++ y)) := by
  have hd1 : "<!--".data.map pyLower = ['<', '!', '-', '-'] := by decide
  have hd2 : "-->".data.map pyLower = ['-', '-', '>'] := by decide
  have key : ∀ (c3 : List Char), (∀ ch ∈ c3, pyLower ch ≠ '<' ∧ pyLower ch ≠ '-') →
      substP tryComment none (substP tryStyleTag none (substP tryScript none
        ((x ++ "<!--".data ++ c3 ++ "-->".data ++ y).map pyLower))) =
      x.map pyLower ++ y.map pyLower := by
    intro c3 hc3
    have hX : ∀ ch ∈ x.map pyLower, ch ≠ '<' := by
      intro ch hch
      obtain ⟨c0, hc0, rfl⟩ := List.mem_map.mp hch
      exact hx c0 hc0
    have hY : ∀ ch ∈ y.map pyLower, ch ≠ '<' := by
      intro ch hch
      obtain ⟨c0, hc0, rfl⟩ := List.mem_map.mp hch
      exact hy c0 hc0
    have hCl : ∀ ch ∈ c3.map pyLower, ch ≠ '<' := by
      intro ch hch
      obtain ⟨c0, hc0, rfl⟩ := List.mem_map.mp hch
      exact (hc3 c0 hc0).1
    have hCm : ∀ ch ∈ c3.map pyLower, ch ≠ '-' := by
      intro ch hch
      obtain ⟨c0, hc0, rfl⟩ := List.mem_map.mp hch
      exact (hc3 c0 hc0).2
    have hp1 : pyLower '<' = '<' := by decide
    have hp2 : pyLower '!' = '!' := by decide
    have hp3 : pyLower '-' = '-' := by decide
    have hp4 : pyLower '>' = '>' := by decide
    have hmap : (x ++ "<!--".data ++ c3 ++ "-->".data ++ y).map pyLower =
        x.map pyLower ++ '<' :: '!' :: '-' :: '-' ::
          (c3.map pyLower ++ '-' :: '-' :: '>' :: y.map pyLower) := by
      simp only [List.map_append, List.map_cons, hd1, hd2, hp1, hp2, hp3, hp4,
        List.append_assoc, List.cons_append, List.nil_append]
    rw [hmap]
    rw [substP_eq_self tryScript _ (fun pr t ht =>
      tryScript_none_of_shape pr t (commentShape_suffix_heads hX hCl hY ht))]
    rw [substP_eq_self tryStyleTag _ (fun pr t ht =>
      tryStyleTag_none_of_shape pr t (commentShape_suffix_heads hX hCl hY ht))]
    exact substP_comment_removes _ _ _ hX hCm hCl hY none
  show String.mk (cleanTail (substP tryComment none (substP tryStyleTag none
      (substP tryScript none ((x ++ "<!--".data ++ c ++ "-->".data ++ y).map pyLower))))) =
    String.mk (cleanTail (substP tryComment none (substP tryStyleTag none
      (substP tryScript none ((x ++ "<!--".data ++ c2 ++ "-->".data ++ y).map pyLower)))))
  rw [key c hc, key c2 hc2]

/-- Witness for the amended C4 at two concrete documents differing only in
the comment body. -/
theorem normalize_comment_invariance_witness :
    (∀ ch ∈ "ab ".data, pyLower ch ≠ '<') ∧
    (∀ ch ∈ " z9".data, pyLower ch ≠ '<') ∧
    (∀ ch ∈ "one".data, pyLower ch ≠ '<' ∧ pyLower ch ≠ '-') ∧
    (∀ ch ∈ "two 2".data, pyLower ch ≠ '<' ∧ pyLower ch ≠ '-') ∧
    clean_html_for_comparison
        (String.mk ("ab ".data ++ "<!--".data ++ "one".data ++ "-->".data ++ " z9".data)) =
      clean_html_for_comparison
        (String.mk ("ab ".data ++ "<!--".data ++ "two 2".data ++ "-->".data ++ " z9".data)) :=
  ⟨by decide, by decide, by decide, by decide,
    normalize_comment_invariance "ab ".data "one".data "two 2".data " z9".data
      (by decide) (by decide) (by decide) (by decide)⟩

end Gitbook
